import Mathlib

/-!
Verification development for the adapter layer of the `ds.ts` repository
(`src/adapters/utils.ts`, `src/adapters/chat_adapter.ts`, `src/adapters/base.ts`,
`src/adapters/json_adapter.ts`, `src/adapters/types.ts`, `src/signatures/signature.ts`).

The TypeScript code is shallowly embedded:
* JS runtime values are the inductive `Value` (JSON values plus `undef`);
* JS machine numbers are modelled as exact rationals plus signed infinities
  (`JsNum`); `NaN` is modelled as `Option.none` of the conversion functions;
* `JSON.parse` and the JS `Number(...)` string conversion are modelled by
  executable parsers over the numeric grammar they share
  (`splitNum` / `evalDec`); string trimming uses the whitespace set
  `' '`, `'\t'`, `'\r'`, `'\n'`;
* Zod schemas are the inductive `ZSchema`; `.meta(...)` wrapping is the
  `withMeta` constructor (Zod v4 `.meta` does not change the runtime class,
  so `instanceof` checks look through it via `stripMeta`);
* exceptions become `Option`/`Except` results.
-/

/-- JS runtime value (JSON value universe plus `undefined`). -/
inductive Value where
  | undef : Value
  | null : Value
  | bool (b : Bool) : Value
  | num (q : ℚ) : Value
  | str (s : String) : Value
  | arr (xs : List Value) : Value
  | obj (fields : List (String × Value)) : Value
  deriving Repr

/-- Result of the JS `Number(string)` conversion when it is not `NaN`. -/
inductive JsNum where
  | fin (q : ℚ) : JsNum
  | inf : JsNum
  | ninf : JsNum
  deriving Repr, DecidableEq

/-- Whitespace for the string-trimming model (space, tab, carriage return,
newline). -/
def isJsWsChar (c : Char) : Bool := c = ' ' ∨ c = '\t' ∨ c = '\r' ∨ c = '\n'

/-- Model of the JS `s.trim()` (restricted to the common whitespace set). -/
def jsTrim (s : String) : String :=
  String.mk (((s.toList.dropWhile isJsWsChar).reverse.dropWhile isJsWsChar).reverse)

/-- Model of the JS `s.toLowerCase()` on ASCII text. -/
def jsToLowerStr (s : String) : String :=
  String.mk (s.toList.map Char.toLower)

/-- Model of `s.startsWith(pre)`. -/
def strStartsWith (s pre : String) : Bool :=
  pre.toList.isPrefixOf s.toList

def splitCharAux (c : Char) : List Char → List Char → List String
  | [], acc => [String.mk acc.reverse]
  | x :: xs, acc =>
    if x = c then String.mk acc.reverse :: splitCharAux c xs []
    else splitCharAux c xs (x :: acc)

/-- Model of `s.split(c)` for a single separator character. -/
def splitChar (c : Char) (s : String) : List String :=
  splitCharAux c s.toList []

def isDigitCh (c : Char) : Bool := '0' ≤ c ∧ c ≤ '9'

def isHexDigitCh (c : Char) : Bool :=
  isDigitCh c ∨ ('a' ≤ c ∧ c ≤ 'f') ∨ ('A' ≤ c ∧ c ≤ 'F')

def hexDigitVal (c : Char) : ℕ :=
  if isDigitCh c then c.toNat - 48
  else if 'a' ≤ c ∧ c ≤ 'f' then c.toNat - 87
  else c.toNat - 55

/-- Value of a list of decimal digit characters, most significant first. -/
def digitsVal (ds : List Char) : ℕ :=
  ds.foldl (fun a c => 10 * a + (c.toNat - 48)) 0

def hexVal (ds : List Char) : ℕ :=
  ds.foldl (fun a c => 16 * a + hexDigitVal c) 0

def octVal (ds : List Char) : ℕ :=
  ds.foldl (fun a c => 8 * a + (c.toNat - 48)) 0

def binVal (ds : List Char) : ℕ :=
  ds.foldl (fun a c => 2 * a + (c.toNat - 48)) 0

/-- Decomposition of a decimal numeric literal: optional sign, integer digits,
optional decimal point with fraction digits, optional exponent with its own
optional sign.  This decomposition is shared by the models of the JSON number
grammar and of the JS `Number(...)` decimal grammar; the two differ only in
which decompositions they accept (`jsonOkParts` vs `jsOkParts`). -/
structure DecParts where
  sign : Option Char
  intDs : List Char
  dot : Bool
  fracDs : List Char
  exp : Option (Option Char × List Char)
  deriving Repr, DecidableEq

/-- Deterministic scan of a full character list into `DecParts`
(`none` when trailing characters remain). -/
def splitNum (cs : List Char) : Option DecParts :=
  let (sgn, cs1) :=
    match cs with
    | c :: r => if c = '+' ∨ c = '-' then (some c, r) else (none, cs)
    | [] => (none, ([] : List Char))
  let intDs := cs1.takeWhile isDigitCh
  let cs2 := cs1.dropWhile isDigitCh
  let (dot, fracDs, cs3) :=
    match cs2 with
    | '.' :: r => (true, r.takeWhile isDigitCh, r.dropWhile isDigitCh)
    | _ => (false, ([] : List Char), cs2)
  match cs3 with
  | [] => some ⟨sgn, intDs, dot, fracDs, none⟩
  | e :: r =>
    if e = 'e' ∨ e = 'E' then
      let (esgn, r1) :=
        match r with
        | c :: r2 => if c = '+' ∨ c = '-' then (some c, r2) else (none, r)
        | [] => (none, ([] : List Char))
      let eds := r1.takeWhile isDigitCh
      if r1.dropWhile isDigitCh = [] then some ⟨sgn, intDs, dot, fracDs, some (esgn, eds)⟩
      else none
    else none

/-- Exact rational value denoted by a decimal decomposition, built with the
core `mkRat` so that concrete values reduce inside the kernel:
`sign * (intDigits.fracDigits) * 10 ^ exponent`. -/
def evalDec (p : DecParts) : ℚ :=
  let frNum : ℕ := digitsVal p.intDs * 10 ^ p.fracDs.length + digitsVal p.fracDs
  let expVal : ℤ :=
    match p.exp with
    | none => 0
    | some (s, ds) => if s = some '-' then -(digitsVal ds : ℤ) else (digitsVal ds : ℤ)
  let num : ℤ := if p.sign = some '-' then -(frNum : ℤ) else (frNum : ℤ)
  match expVal with
  | Int.ofNat e => mkRat (num * ((10 ^ e : ℕ) : ℤ)) (10 ^ p.fracDs.length)
  | Int.negSucc e => mkRat num (10 ^ p.fracDs.length * 10 ^ (e + 1))

/-- Validity of a decomposition under the JS `Number(...)` decimal grammar:
at least one digit overall, and a nonempty exponent digit list when an
exponent marker is present. -/
def jsOkParts (p : DecParts) : Bool :=
  (!p.intDs.isEmpty || !p.fracDs.isEmpty) &&
    (match p.exp with
     | some (_, ds) => !ds.isEmpty
     | none => true)

/-- Validity of a decomposition under the JSON number grammar: no leading
`+`, nonempty integer part without redundant leading zeros, a nonempty
fraction after a decimal point, nonempty exponent digits. -/
def jsonOkParts (p : DecParts) : Bool :=
  (p.sign != some '+') &&
  !p.intDs.isEmpty &&
  (if p.intDs.head? = some '0' then p.intDs == ['0'] else true) &&
  (if p.dot then !p.fracDs.isEmpty else true) &&
  (match p.exp with
   | some (_, ds) => !ds.isEmpty
   | none => true)

/-- Model of the JS `Number(string)` conversion (`none` models `NaN`).
The trimmed text is classified by the shared decimal scan first; the
`Infinity` and radix-prefixed forms (`0x`, `0o`, `0b`) are disjoint from the
decimal grammar, so testing them only when the scan fails is equivalent to
the JS grammar. -/
def jsToNumber (s : String) : Option JsNum :=
  let t := jsTrim s
  if t = "" then some (.fin 0)
  else
    match splitNum t.toList with
    | some p => if jsOkParts p then some (.fin (evalDec p)) else none
    | none =>
      if t = "Infinity" ∨ t = "+Infinity" then some .inf
      else if t = "-Infinity" then some .ninf
      else if strStartsWith t "0x" ∨ strStartsWith t "0X" then
        let ds := (t.drop 2).toList
        if ¬ ds.isEmpty ∧ ds.all isHexDigitCh then some (.fin (hexVal ds)) else none
      else if strStartsWith t "0o" ∨ strStartsWith t "0O" then
        let ds := (t.drop 2).toList
        if ¬ ds.isEmpty ∧ ds.all (fun c => '0' ≤ c ∧ c ≤ '7') then some (.fin (octVal ds)) else none
      else if strStartsWith t "0b" ∨ strStartsWith t "0B" then
        let ds := (t.drop 2).toList
        if ¬ ds.isEmpty ∧ ds.all (fun c => c = '0' ∨ c = '1') then some (.fin (binVal ds)) else none
      else none

/-- JSON insignificant whitespace skipping. -/
def skipWs (cs : List Char) : List Char :=
  cs.dropWhile (fun c => c = ' ' ∨ c = '\t' ∨ c = '\n' ∨ c = '\r')

def isNumTokCh (c : Char) : Bool :=
  isDigitCh c ∨ c = '+' ∨ c = '-' ∨ c = '.' ∨ c = 'e' ∨ c = 'E'

/-- JSON string body parser (assumes the opening quote was consumed);
returns the decoded characters and the rest after the closing quote. -/
def jsonStringBody : Nat → List Char → Option (List Char × List Char)
  | 0, _ => none
  | Nat.succ f, cs =>
    match cs with
    | [] => none
    | '"' :: r => some ([], r)
    | '\\' :: e :: r =>
      let cont (dec : Char) (rest : List Char) : Option (List Char × List Char) :=
        (jsonStringBody f rest).map (fun pr => (dec :: pr.1, pr.2))
      if e = '"' then cont '"' r
      else if e = '\\' then cont '\\' r
      else if e = '/' then cont '/' r
      else if e = 'b' then cont (Char.ofNat 8) r
      else if e = 'f' then cont (Char.ofNat 12) r
      else if e = 'n' then cont '\n' r
      else if e = 'r' then cont '\r' r
      else if e = 't' then cont '\t' r
      else if e = 'u' then
        match r with
        | a :: b :: c :: d :: r2 =>
          if isHexDigitCh a ∧ isHexDigitCh b ∧ isHexDigitCh c ∧ isHexDigitCh d then
            cont (Char.ofNat (hexDigitVal a * 4096 + hexDigitVal b * 256 + hexDigitVal c * 16 + hexDigitVal d)) r2
          else none
        | _ => none
      else none
    | c :: r => if c.toNat < 32 then none else
        (jsonStringBody f r).map (fun pr => (c :: pr.1, pr.2))

mutual

/-- Fuelled model of the JSON grammar value parser: parses one JSON value and
returns the remaining input. -/
def jsonValueP : Nat → List Char → Option (Value × List Char)
  | 0, _ => none
  | Nat.succ f, cs0 =>
    let cs := skipWs cs0
    match cs with
    | '"' :: r => (jsonStringBody (Nat.succ f) r).map (fun pr => (.str (String.mk pr.1), pr.2))
    | '[' :: r =>
      (match skipWs r with
       | ']' :: r2 => some (.arr [], r2)
       | r2 => (jsonElemsP f r2).map (fun pr => (.arr pr.1, pr.2)))
    | '{' :: r =>
      (match skipWs r with
       | '}' :: r2 => some (.obj [], r2)
       | r2 => (jsonMembersP f r2).map (fun pr => (.obj pr.1, pr.2)))
    | _ =>
      if cs.take 4 = "true".toList then some (.bool true, cs.drop 4)
      else if cs.take 5 = "false".toList then some (.bool false, cs.drop 5)
      else if cs.take 4 = "null".toList then some (.null, cs.drop 4)
      else
        let tok := cs.takeWhile isNumTokCh
        if tok.isEmpty then none
        else
          match splitNum tok with
          | some p => if jsonOkParts p then some (.num (evalDec p), cs.drop tok.length) else none
          | none => none
termination_by structural fuel _ => fuel

/-- Comma-separated JSON array elements up to the closing bracket. -/
def jsonElemsP : Nat → List Char → Option (List Value × List Char)
  | 0, _ => none
  | Nat.succ f, cs => do
    let (v, r) ← jsonValueP f cs
    match skipWs r with
    | ',' :: r2 => (jsonElemsP f r2).map (fun pr => (v :: pr.1, pr.2))
    | ']' :: r2 => some ([v], r2)
    | _ => none
termination_by structural fuel _ => fuel

/-- Comma-separated JSON object members up to the closing brace. -/
def jsonMembersP : Nat → List Char → Option (List (String × Value) × List Char)
  | 0, _ => none
  | Nat.succ f, cs => do
    match skipWs cs with
    | '"' :: r =>
      let (k, r1) ← jsonStringBody (Nat.succ f) r
      match skipWs r1 with
      | ':' :: r2 => do
        let (v, r3) ← jsonValueP f r2
        match skipWs r3 with
        | ',' :: r4 => (jsonMembersP f r4).map (fun pr => ((String.mk k, v) :: pr.1, pr.2))
        | '}' :: r4 => some ([(String.mk k, v)], r4)
        | _ => none
      | _ => none
    | _ => none
termination_by structural fuel _ => fuel

end

/-- Model of `JSON.parse` on a whole string (`none` models a thrown
`SyntaxError`).  Scalar literals and top-level numbers are recognised
directly on the trimmed text; composite values go through the fuelled
grammar parser and must consume the whole input. -/
def jsonParse (s : String) : Option Value :=
  let t := jsTrim s
  if t = "true" then some (.bool true)
  else if t = "false" then some (.bool false)
  else if t = "null" then some .null
  else
    match t.toList with
    | [] => none
    | c :: _ =>
      if c = '"' ∨ c = '[' ∨ c = '{' then
        match jsonValueP (t.length + 1) t.toList with
        | some (v, rest) => if skipWs rest = [] then some v else none
        | none => none
      else
        match splitNum t.toList with
        | some p => if jsonOkParts p then some (.num (evalDec p)) else none
        | none => none

/-- Metadata attached to a Zod schema through `.meta(...)` (source:
`src/adapters/types.ts`).  `format` is the custom-type value-to-content-blocks
function; content blocks are themselves modelled as `Value`s. -/
structure ZMeta where
  name : Option String := none
  format : Option (Value → List Value) := none
  desc : Option String := none
  history : Bool := false
  constraints : Option String := none
  description : Option String := none

/-- Zod schema model.  `withMeta` models `.meta(...)`: in Zod v4 it does not
change the runtime class of the schema, so `instanceof` checks and `_def.type`
dispatch look through it. -/
inductive ZSchema where
  | str : ZSchema
  | num : ZSchema
  | bool : ZSchema
  | date : ZSchema
  | bigintS : ZSchema
  | enumS (vals : List String) : ZSchema
  | arr (elem : ZSchema) : ZSchema
  | obj (shape : List (String × ZSchema)) : ZSchema
  | union (opts : List ZSchema) : ZSchema
  | optionalS (inner : ZSchema) : ZSchema
  | nullableS (inner : ZSchema) : ZSchema
  | withMeta (inner : ZSchema) (m : ZMeta) : ZSchema

/-- Underlying schema ignoring metadata wrappers (runtime class of the zod
object). -/
def ZSchema.stripMeta : ZSchema → ZSchema
  | .withMeta inner _ => inner.stripMeta
  | s => s

/-- Outermost metadata of a schema (`schema.meta()`). -/
def ZSchema.metaOf : ZSchema → Option ZMeta
  | .withMeta _ m => some m
  | _ => none

/-- Model of `field instanceof z.ZodString`. -/
def isZodString (s : ZSchema) : Bool :=
  match s.stripMeta with
  | .str => true
  | _ => false

/-- Model of `field instanceof z.ZodNumber`. -/
def isZodNumber (s : ZSchema) : Bool :=
  match s.stripMeta with
  | .num => true
  | _ => false

/-- Model of `field instanceof z.ZodBoolean`. -/
def isZodBoolean (s : ZSchema) : Bool :=
  match s.stripMeta with
  | .bool => true
  | _ => false

/-- Model of `is_custom_type` (source: `src/adapters/types.ts`): the schema
carries metadata with a string `name` and a `format` function. -/
def is_custom_type (t : ZSchema) : Bool :=
  match t.metaOf with
  | some m => m.name.isSome ∧ m.format.isSome
  | none => false

mutual

/-- Model of Zod's `schema.parse(value)` (`none` models a thrown `ZodError`).
Plain `z.number()` in Zod v4 rejects non-finite values, which the model
reflects by `Value.num` carrying only finite rationals.  Objects strip
unknown keys; `date`/`bigint` schemas reject every JSON-representable value. -/
def zodParse : ZSchema → Value → Option Value
  | .withMeta inner _, v => zodParse inner v
  | .str, .str s => some (.str s)
  | .str, _ => none
  | .num, .num q => some (.num q)
  | .num, _ => none
  | .bool, .bool b => some (.bool b)
  | .bool, _ => none
  | .date, _ => none
  | .bigintS, _ => none
  | .enumS vals, .str s => if s ∈ vals then some (.str s) else none
  | .enumS _, _ => none
  | .arr e, .arr xs => (zodParseList e xs).map .arr
  | .arr _, _ => none
  | .obj shape, .obj fs => (zodParseShape shape fs).map .obj
  | .obj _, _ => none
  | .union opts, v => zodParseFirst opts v
  | .optionalS _, .undef => some .undef
  | .optionalS inner, v => zodParse inner v
  | .nullableS _, .null => some .null
  | .nullableS inner, v => zodParse inner v

def zodParseList : ZSchema → List Value → Option (List Value)
  | _, [] => some []
  | e, x :: xs => do
    let v ← zodParse e x
    let vs ← zodParseList e xs
    pure (v :: vs)

def zodParseShape : List (String × ZSchema) → List (String × Value) → Option (List (String × Value))
  | [], _ => some []
  | (k, sch) :: rest, fs => do
    let raw ← fs.lookup k
    let v ← zodParse sch raw
    let vs ← zodParseShape rest fs
    pure ((k, v) :: vs)

def zodParseFirst : List ZSchema → Value → Option Value
  | [], _ => none
  | o :: os, v =>
    match zodParse o v with
    | some r => some r
    | none => zodParseFirst os v

end

/-- Model of `parseValue` (source: `src/adapters/utils.ts`).  A string schema
returns the trimmed text; otherwise `JSON.parse` + `schema.parse` is tried,
with a fallback to JS `Number(...)` conversion for number schemas and to
case-insensitive `true`/`false` literals for boolean schemas.  `none` models
a thrown exception. -/
def parseValue (schema : ZSchema) (value : String) : Option Value :=
  if isZodString schema then some (.str (jsTrim value))
  else
    let fallback : Option Value :=
      if isZodNumber schema then
        match jsToNumber value with
        | some (.fin q) => zodParse schema (.num q)
        | some .inf => none
        | some .ninf => none
        | none => none
      else if isZodBoolean schema then
        let b := jsToLowerStr (jsTrim value)
        if b = "true" then zodParse schema (.bool true)
        else if b = "false" then zodParse schema (.bool false)
        else none
      else none
    match jsonParse value with
    | some parsed =>
      match zodParse schema parsed with
      | some v => some v
      | none => fallback
    | none => fallback

/-- Drops one trailing carriage return, so that splitting on `'\n'` then
applying this models the JS `completion.split(/\r?\n/)`. -/
def dropTrailingCR (s : String) : String :=
  if s.toList.getLast? = some '\r' then String.mk s.toList.dropLast else s

/-- Model of `completion.split(/\r?\n/)`. -/
def splitLines (s : String) : List String :=
  (splitChar '\n' s).map dropTrailingCR

/-- Matches `\w` of the header regular expression. -/
def isWordChar (c : Char) : Bool := c.isAlphanum || c = '_'

/-- Model of `FIELD_HEADER_PATTERN.exec(trimmed)` for the anchored pattern
`[[ ## (\w+) ## ]]` (source: `src/adapters/chat_adapter.ts`): returns the
captured field name and the text after the whole match. -/
def headerMatch (t : String) : Option (String × String) :=
  if strStartsWith t "[[ ## " then
    let rest := t.drop 6
    let name := String.mk (rest.toList.takeWhile isWordChar)
    if name ≠ "" ∧ strStartsWith (rest.drop name.length) " ## ]]" then
      some (name, rest.drop (name.length + 6))
    else none
  else none

/-- State-machine scan of `ChatAdapter.parse`: a header line closes the
current section and opens a new one (seeded with any trimmed same-line
remainder), any other line is appended raw to the current section; the
initial section is the unnamed (`none`) preamble. -/
def scanSections (lines : List String) : List (Option String × List String) :=
  lines.foldl
    (fun sections line =>
      match headerMatch (jsTrim line) with
      | some (header, remaining) =>
        let rc := jsTrim remaining
        sections ++ [(some header, if rc ≠ "" then [rc] else [])]
      | none =>
        match sections.getLast? with
        | some (k, vs) => sections.dropLast ++ [(k, vs ++ [line])]
        | none => sections)
    [(none, [])]

/-- Section map of a completion: section lines joined with `"\n"` and
trimmed (`sections.map(([k, v]) => [k, v.join("\n").trim()])`). -/
def sectionMap (completion : String) : List (Option String × String) :=
  (scanSections (splitLines completion)).map
    (fun p => (p.1, jsTrim (String.intercalate "\n" p.2)))

/-- Model of the `Signature` class (source: `src/signatures/signature.ts`):
instructions plus ordered input and output field shapes. -/
structure Signature where
  instructions : Option String := none
  input : List (String × ZSchema)
  output : List (String × ZSchema)

/-- Key list of `signature.output_fields`. -/
def Signature.outputKeys (s : Signature) : List String := s.output.map Prod.fst

/-- Key list of `signature.input_fields`. -/
def Signature.inputKeys (s : Signature) : List String := s.input.map Prod.fst

/-- Model of `signature.delete("input", name)`: removes the field from the
input shape only, keeping instructions. -/
def Signature.deleteInput (s : Signature) (name : String) : Signature :=
  { instructions := s.instructions
    input := s.input.filter (fun p => p.1 ≠ name)
    output := s.output }

/-- Model of `sameKeys` (source: `src/adapters/chat_adapter.ts`), applied to
the key lists of the two records. -/
def sameKeys (a b : List String) : Bool :=
  a.length == b.length && a.all (fun k => b.contains k)

/-- Model of the `AdapterParseError` exception (source:
`src/exceptions.ts`): it stores the adapter name, the signature, the raw LM
response, the optional partial result, and a composed message that always
names the expected output fields. -/
structure AdapterParseError where
  adapter_name : String
  signature : Signature
  lm_response : String
  parsed_result : Option (List (String × Value))
  message : String

/-- Model of the `AdapterParseError` constructor: composes the message
exactly as the source does (the expected output fields are always listed;
the actually-parsed fields are listed when a partial result is supplied). -/
def mkAdapterParseError (adapter_name : String) (sig : Signature) (lm_response : String)
    (msg : Option String) (parsed : Option (List (String × Value))) : AdapterParseError :=
  let fullMessage :=
    (match msg with | some m => m ++ "\n\n" | none => "") ++
    "Adapter " ++ adapter_name ++ " failed to parse the LM response. \n\n" ++
    "LM Response: " ++ lm_response ++ " \n\n" ++
    "Expected to find output fields in the LM response: [" ++
      String.intercalate ", " (sig.outputKeys) ++ "] \n\n" ++
    (match parsed with
     | some r => "Actual output fields parsed from the LM response: [" ++
        String.intercalate ", " (r.map Prod.fst) ++ "] \n\n"
     | none => "")
  ⟨adapter_name, sig, lm_response, parsed, fullMessage⟩

/-- Per-section result-building loop of `ChatAdapter.parse`: the first
occurrence of a recognised output-field name wins, coercion uses
`parseValue`, and a coercion failure either stores the raw section text
(partial mode) or raises a structured error.  (The trailing text of the
underlying JS error is not reproduced in the composed message.) -/
def chatParseLoop (sig : Signature) (completion : String) (allow_partial_output : Bool) :
    List (Option String × String) → List (String × Value) →
    Except AdapterParseError (List (String × Value))
  | [], acc => .ok acc
  | (none, _) :: rest, acc => chatParseLoop sig completion allow_partial_output rest acc
  | (some name, v) :: rest, acc =>
    if (acc.map Prod.fst).contains name then
      chatParseLoop sig completion allow_partial_output rest acc
    else
      match sig.output.lookup name with
      | none => chatParseLoop sig completion allow_partial_output rest acc
      | some sch =>
        match parseValue sch v with
        | some pv => chatParseLoop sig completion allow_partial_output rest (acc ++ [(name, pv)])
        | none =>
          if allow_partial_output then
            chatParseLoop sig completion allow_partial_output rest (acc ++ [(name, .str v)])
          else
            .error (mkAdapterParseError "ChatAdapter" sig completion
              (some ("Failed to parse field " ++ name ++ " with value " ++ v ++
                " from the LM response.")) none)

/-- Model of `ChatAdapter.parse` (source: `src/adapters/chat_adapter.ts`):
scan sections, build the result map, then require the key set to match the
output fields exactly unless partial output is allowed. -/
def chatParse (sig : Signature) (completion : String) (allow_partial_output : Bool := false) :
    Except AdapterParseError (List (String × Value)) :=
  match chatParseLoop sig completion allow_partial_output (sectionMap completion) [] with
  | .error e => .error e
  | .ok result =>
    if !sameKeys sig.outputKeys (result.map Prod.fst) && !allow_partial_output then
      .error (mkAdapterParseError "ChatAdapter" sig completion
        (some ("Expected output fields: " ++ String.intercalate ", " sig.outputKeys))
        (some result))
    else .ok result

def firstDedupAux : List String → List String → List String
  | [], _ => []
  | x :: xs, seen =>
    if seen.contains x then firstDedupAux xs seen
    else x :: firstDedupAux xs (x :: seen)

/-- Duplicate removal keeping first occurrences. -/
def firstDedup (l : List String) : List String := firstDedupAux l []

/-- Specification-level description of the output-field sections recovered by
the marker parser: the section names that are output fields, in order of
first occurrence. -/
def recoveredKeys (sig : Signature) (completion : String) : List String :=
  firstDedup (((sectionMap completion).filterMap Prod.fst).filter
    (fun k => sig.outputKeys.contains k))

/-- JSON string quoting for `JSON.stringify`. -/
def jsonQuote (s : String) : String :=
  "\"" ++ String.join (s.toList.map (fun c =>
    if c = '"' then "\\\""
    else if c = '\\' then "\\\\"
    else if c = '\n' then "\\n"
    else if c = '\r' then "\\r"
    else if c = '\t' then "\\t"
    else if c.toNat = 8 then "\\b"
    else if c.toNat = 12 then "\\f"
    else if c.toNat < 32 then "\\u00" ++ String.mk [hexDigitLow (c.toNat / 16), hexDigitLow (c.toNat % 16)]
    else String.mk [c])) ++ "\""
where
  hexDigitLow (n : ℕ) : Char := if n < 10 then Char.ofNat (48 + n) else Char.ofNat (87 + n)

/-- Number rendering for `JSON.stringify`; exact for integers (the only
numbers the embedded call sites produce), `num/den` otherwise (the JS
shortest-round-trip double notation is not modelled). -/
def numToString (q : ℚ) : String :=
  if q.den = 1 then toString q.num else toString q

/-- Two spaces of indentation per depth level. -/
def indentSp (d : Nat) : String := String.join (List.replicate d "  ")

mutual

/-- Model of `JSON.stringify(value, null, 2)` at nesting depth `d`;
`none` models the `undefined` result for an `undefined` input. -/
def jsonStringifyV : Value → Nat → Option String
  | .undef, _ => none
  | .null, _ => some "null"
  | .bool b, _ => some (if b then "true" else "false")
  | .num q, _ => some (numToString q)
  | .str s, _ => some (jsonQuote s)
  | .arr xs, d =>
    match xs with
    | [] => some "[]"
    | _ =>
      let items := jsonStringifyArr xs (d + 1)
      some ("[\n" ++ String.intercalate ",\n"
        (items.map (fun it => indentSp (d + 1) ++ it)) ++ "\n" ++ indentSp d ++ "]")
  | .obj fs, d =>
    let items := jsonStringifyObj fs (d + 1)
    match items with
    | [] => some "\x7b\x7d"
    | _ =>
      some ("\x7b\n" ++ String.intercalate ",\n"
        (items.map (fun it => indentSp (d + 1) ++ it)) ++ "\n" ++ indentSp d ++ "\x7d")

/-- Array items; `undefined` elements render as `null` (JS semantics). -/
def jsonStringifyArr : List Value → Nat → List String
  | [], _ => []
  | x :: xs, d => ((jsonStringifyV x d).getD "null") :: jsonStringifyArr xs d

/-- Object members; keys whose value is `undefined` are omitted (JS
semantics). -/
def jsonStringifyObj : List (String × Value) → Nat → List String
  | [], _ => []
  | (k, v) :: fs, d =>
    match jsonStringifyV v d with
    | some sv => (jsonQuote k ++ ": " ++ sv) :: jsonStringifyObj fs d
    | none => jsonStringifyObj fs d

end

/-- First index at which `pat` occurs in `hay` (model of JS `indexOf`). -/
def listIndexOfSub (hay pat : List Char) : Option Nat :=
  match hay with
  | [] => if pat = [] then some 0 else none
  | _ :: t => if pat.isPrefixOf hay then some 0 else (listIndexOfSub t pat).map (· + 1)

/-- Model of the JS `s.replace(pat, rep)` with a *string* pattern: replaces
only the first occurrence. -/
def replaceFirst (s pat rep : String) : String :=
  match listIndexOfSub s.toList pat.toList with
  | none => s
  | some i => String.mk (s.toList.take i ++ rep.toList ++ s.toList.drop (i + pat.length))

/-- Model of the JS `s.includes(sub)` substring test. -/
def strIncludes (s sub : String) : Bool :=
  (listIndexOfSub s.toList sub.toList).isSome

/-- Model of `_format_blob` (source: `src/adapters/utils.ts`). -/
def _format_blob (blob : String) : String :=
  if !strIncludes blob "\n" && !strIncludes blob "«" && !strIncludes blob "»" then
    "«" ++ blob ++ "»"
  else
    "«««\n    " ++ replaceFirst blob "\n" "\n    " ++ "\n»»»"

/-- Model of `_format_input_list_field_value` (source:
`src/adapters/utils.ts`). -/
def _format_input_list_field_value (value : List String) : String :=
  if value.length = 0 then "N/A"
  else if h : value.length = 1 then _format_blob (value.get ⟨0, by omega⟩)
  else String.intercalate "\n"
    (value.enum.map (fun p => "[" ++ toString (p.1 + 1) ++ "] " ++ _format_blob p.2))

def CUSTOM_TYPE_START_IDENTIFIER : String := "<<CUSTOM-TYPE-START-IDENTIFIER>>"

def CUSTOM_TYPE_END_IDENTIFIER : String := "<<CUSTOM-TYPE-END-IDENTIFIER>>"

/-- Per-formatting-call context map from placeholder id to the custom type
and raw value it stands for. -/
abbrev Ctx := List (String × (ZSchema × Value))

/-- Model of the JS assignment `context[id] = entry`: overwrites in place if
the key exists, otherwise appends. -/
def ctxInsert (ctx : Ctx) (id : String) (entry : ZSchema × Value) : Ctx :=
  if (ctx.map Prod.fst).contains id then
    ctx.map (fun p => if p.1 = id then (id, entry) else p)
  else ctx ++ [(id, entry)]

def ctxLookup (ctx : Ctx) (id : String) : Option (ZSchema × Value) :=
  List.lookup id ctx

/-- Whether the JS value is an array (`Array.isArray`). -/
def Value.isArr : Value → Bool
  | .arr _ => true
  | _ => false

/-- String contents of a list of JS values, when every element is a string
(the `string[]` typing of `_format_input_list_field_value`; a non-string
element would make the JS `.includes` call throw, modelled as `none`). -/
def strsOf (xs : List Value) : Option (List String) :=
  xs.mapM (fun v => match v with | .str s => some s | _ => none)

/-- Model of `format_field_value` (source: `src/adapters/utils.ts`) with
`assume_text = true` (the only mode the embedded call sites use).
`freshId` stands for the `crypto.randomUUID()` result; the returned context
is the (possibly mutated) context map, `none` when called without one.
`JSON.stringify` returning `undefined` interpolates to the text
`"undefined"` at every call site, which the model applies directly. -/
def format_field_value (field : ZSchema) (value : Value) (context : Option Ctx)
    (freshId : String) : Except String (String × Option Ctx) :=
  if is_custom_type field then
    match context with
    | none =>
      match value with
      | .str s => .ok (s, none)
      | _ => .error "Context dict is required to format custom types"
    | some ctx =>
      .ok (CUSTOM_TYPE_START_IDENTIFIER ++ freshId ++ CUSTOM_TYPE_END_IDENTIFIER,
        some (ctxInsert ctx freshId (field, value)))
  else if value.isArr ∧ isZodString field then
    match value with
    | .arr xs =>
      (match strsOf xs with
       | some ss => .ok (_format_input_list_field_value ss, context)
       | none => .error "TypeError: blob.includes is not a function")
    | _ => .error "unreachable"
  else
    .ok ((jsonStringifyV value 0).getD "undefined", context)

/-- Model of `JSONAdapter.run` / `JSONAdapter.stream` (source:
`src/adapters/json_adapter.ts`): the adapter formats and calls the LM with
structured output and returns the result directly, performing no retry of
its own.  `attempt` is the outcome of that single attempt; the second
component counts JSONAdapter invocations (this call counts itself once). -/
def jsonAdapterRun {E R : Type} (attempt : Except E R) : Except E R × Nat :=
  (attempt, 1)

/-- Model of `ChatAdapter.run` / `ChatAdapter.stream` (source:
`src/adapters/chat_adapter.ts`): try the full format-call-parse pipeline
(`primary` is its outcome); on any thrown error, re-raise it unless the
instance is not a `JSONAdapter` and `use_json_adapter_fallback` is enabled,
in which case a fresh `JSONAdapter` is run once (`secondary` is the outcome
of that attempt).  The second component counts JSONAdapter invocations. -/
def chatAdapterRun {E R : Type} (isJsonAdapterInstance use_json_adapter_fallback : Bool)
    (primary secondary : Except E R) : Except E R × Nat :=
  match primary with
  | .ok r => (.ok r, 0)
  | .error e =>
    if isJsonAdapterInstance || !use_json_adapter_fallback then (.error e, 0)
    else jsonAdapterRun secondary

/-- Node definition in the runtime schema graph (`_def` of a live Zod
object).  Children are node indices, so self-referential (`z.lazy`) schemas
are representable; `lazy` stores the node its getter returns. -/
inductive GDef where
  | str : GDef
  | num : GDef
  | bool : GDef
  | object (shape : List (String × Nat)) : GDef
  | array (elem : Nat) : GDef
  | tuple (items : List Nat) : GDef
  | union (opts : List Nat) : GDef
  | intersection (left right : Nat) : GDef
  | record (keyType valueType : Nat) : GDef
  | optional (inner : Nat) : GDef
  | nullable (inner : Nat) : GDef
  | lazy (getter : Nat) : GDef

/-- A schema graph: each node is its optional `.meta()` name plus its
definition. -/
abbrev GEnv := List (Option String × GDef)

/-- Fuelled model of `get_annotation_name` (source:
`src/adapters/utils.ts`) over the runtime schema graph.  The source has no
cycle guard, so the fuel models the JS call stack: a `none` result means the
recursion consumed every frame without returning, i.e. the source call never
produces a string.  A missing node models a missing `_def` and yields
`"unknown"`; a `.meta()` name short-circuits structural resolution. -/
def get_annotation_name (env : GEnv) : Nat → Nat → Option String
  | 0, _ => none
  | Nat.succ f, id =>
    match env.get? id with
    | none => some "unknown"
    | some (mname, d) =>
      match mname with
      | some n => some n
      | none =>
        match d with
        | .str => some "string"
        | .num => some "number"
        | .bool => some "boolean"
        | .object shape =>
          (shape.mapM (fun p => (get_annotation_name env f p.2).map
              (fun s => p.1 ++ ": " ++ s))).map (fun fields =>
            "object(\x7b " ++ String.intercalate ", " fields ++ " \x7d)")
        | .array e => (get_annotation_name env f e).map (fun s => "array(" ++ s ++ ")")
        | .tuple items =>
          (items.mapM (get_annotation_name env f)).map
            (fun ss => "tuple([" ++ String.intercalate ", " ss ++ "])")
        | .union opts =>
          (opts.mapM (get_annotation_name env f)).map
            (fun ss => "union(" ++ String.intercalate " | " ss ++ ")")
        | .intersection l r => do
          let ls ← get_annotation_name env f l
          let rs ← get_annotation_name env f r
          pure ("intersection(" ++ ls ++ ", " ++ rs ++ ")")
        | .record k v => do
          let ks ← get_annotation_name env f k
          let vs ← get_annotation_name env f v
          pure ("record(" ++ ks ++ ", " ++ vs ++ ")")
        | .optional i => (get_annotation_name env f i).map (fun s => "optional(" ++ s ++ ")")
        | .nullable i => (get_annotation_name env f i).map (fun s => "nullable(" ++ s ++ ")")
        | .lazy g => (get_annotation_name env f g).map (fun s => "lazy(() => " ++ s ++ ")")
termination_by structural fuel _ => fuel

mutual

/-- Structural counterpart of `get_annotation_name` on the inductive schema
model, used by the field-description builders (these only meet non-cyclic
schemas; the runtime-graph version above is the one that exhibits the
behaviour on self-referential `lazy` schemas). -/
def getAnnotationNameZ : ZSchema → String
  | .withMeta inner m =>
    match m.name with
    | some n => n
    | none => getAnnotationNameZ inner
  | .str => "string"
  | .num => "number"
  | .bool => "boolean"
  | .date => "date"
  | .bigintS => "bigint"
  | .enumS vals => "enum([" ++ String.intercalate ", " (vals.map jsonQuote) ++ "])"
  | .arr e => "array(" ++ getAnnotationNameZ e ++ ")"
  | .obj shape => "object(\x7b " ++ String.intercalate ", " (ganzShape shape) ++ " \x7d)"
  | .union opts => "union(" ++ String.intercalate " | " (ganzList opts) ++ ")"
  | .optionalS i => "optional(" ++ getAnnotationNameZ i ++ ")"
  | .nullableS i => "nullable(" ++ getAnnotationNameZ i ++ ")"

def ganzShape : List (String × ZSchema) → List String
  | [] => []
  | (k, s) :: rest => (k ++ ": " ++ getAnnotationNameZ s) :: ganzShape rest

def ganzList : List ZSchema → List String
  | [] => []
  | s :: rest => getAnnotationNameZ s :: ganzList rest

end

mutual

/-- Model of `extract_custom_type_from_annotation` (source:
`src/adapters/utils.ts`) on the inductive schema model: depth-first list of
all nested schemas carrying a `.meta()` name. -/
def extract_custom_types_z : ZSchema → List ZSchema
  | .withMeta inner m =>
    (if m.name.isSome then [ZSchema.withMeta inner m] else []) ++ extract_custom_types_z inner
  | .arr e => extract_custom_types_z e
  | .obj shape => ectShape shape
  | .union opts => ectList opts
  | .optionalS i => extract_custom_types_z i
  | .nullableS i => extract_custom_types_z i
  | _ => []

def ectShape : List (String × ZSchema) → List ZSchema
  | [] => []
  | (_, s) :: rest => extract_custom_types_z s ++ ectShape rest

def ectList : List ZSchema → List ZSchema
  | [] => []
  | s :: rest => extract_custom_types_z s ++ ectList rest

end

/-- Model of `get_field_description_string` (source:
`src/adapters/utils.ts`). -/
def get_field_description_string (fields : List (String × ZSchema)) : String :=
  jsTrim (String.intercalate "\n" (fields.enum.map (fun p =>
    let idx := p.1
    let name := p.2.1
    let field := p.2.2
    let head := toString (idx + 1) ++ ". `" ++ name ++ "` (" ++ getAnnotationNameZ field ++ ")"
    let desc0 := ((field.metaOf.bind (fun m => m.description)).getD "")
    let desc1 := if desc0 = "$\x7b" ++ name ++ "\x7d" then "" else desc0
    let desc2 := desc1 ++ String.join ((extract_custom_types_z field).filterMap (fun ct =>
      (ct.metaOf.bind (fun m => m.desc)).map (fun d =>
        "\n    Type description of " ++ getAnnotationNameZ ct ++ ": " ++ d)))
    let withDesc := head ++ ": " ++ desc2
    match field.metaOf.bind (fun m => m.constraints) with
    | some c => withDesc ++ "\nConstraints: " ++ c
    | none => withDesc)))

/-- Model of `translate_field_type` (source: `src/adapters/utils.ts`).
The `.int()` check of number schemas is not modelled (no refinement checks
in the schema model), so number fields get the `float` wording. -/
def translate_field_type (field_name : String) (field : ZSchema) : String :=
  if isZodString field then "\x7b" ++ field_name ++ "\x7d"
  else
    let desc :=
      match field.stripMeta with
      | .bool => "must be true or false"
      | .num => "must be a single float value"
      | .bigintS => "must be a single bigint value"
      | .date => "must be a single date value"
      | .enumS vals => "value must be one of: " ++ String.intercalate ", " vals
      | .obj shape =>
        "must adhere to the JSON schema: " ++
          ((jsonStringifyV (.obj (shape.map (fun q => (q.1, Value.str (getAnnotationNameZ q.2))))) 0).getD "")
      | _ => ""
    let note := if desc ≠ "" then "        # note: the value you produce " ++ desc else ""
    "\x7b\x7b" ++ field_name ++ "\x7d\x7d" ++ note

inductive Role where
  | system : Role
  | user : Role
  | assistant : Role
  deriving Repr, DecidableEq

/-- Message content: plain text, or the content-block list produced by the
custom-type split pass. -/
inductive MsgContent where
  | text (s : String) : MsgContent
  | blocks (bs : List Value) : MsgContent
  deriving Repr

structure Msg where
  role : Role
  content : MsgContent
  deriving Repr

/-- Formatting state threaded through one `format` invocation: the shared
context map and the number of `crypto.randomUUID()` calls made so far. -/
abbrev FmtSt := Ctx × Nat

/-- Model of `crypto.randomUUID()`: the `n`-th id generated during a call
(injective, and never colliding with field text in the embedded runs). -/
def uuidGen (n : Nat) : String := "uuid-" ++ toString n

mutual

/-- Model of the JS `String(value)` coercion. -/
def jsString : Value → String
  | .undef => "undefined"
  | .null => "null"
  | .bool b => if b then "true" else "false"
  | .num q => numToString q
  | .str s => s
  | .arr xs => String.intercalate "," (jsStringList xs)
  | .obj _ => "[object Object]"

/-- Array elements under `String(...)`: `undefined` and `null` render
empty. -/
def jsStringList : List Value → List String
  | [] => []
  | .undef :: vs => "" :: jsStringList vs
  | .null :: vs => "" :: jsStringList vs
  | v :: vs => jsString v :: jsStringList vs

end

/-- Model of `type_info` (source: `src/adapters/chat_adapter.ts`). -/
def type_info (t : ZSchema) : String :=
  if !isZodString t then
    " (must be formatted as a valid " ++ getAnnotationNameZ t ++ ")"
  else ""

/-- Model of `ChatAdapter.user_message_output_requirements`. -/
def user_message_output_requirements (sig : Signature) : String :=
  "Respond with the corresponding output fields, starting with the field " ++
  String.intercalate ", then "
    (sig.output.map (fun p => "`[[ ## " ++ p.1 ++ " ## ]]`" ++ type_info p.2)) ++
  ", and then ending with the marker for `[[ ## completed ## ]]`."

/-- Per-field loop of `ChatAdapter.format_user_message_content`: fields of
the signature present in the inputs are rendered through
`format_field_value` with the live context (consuming one fresh id per
custom-type field). -/
def fumcFields (inputs : List (String × Value)) (st : FmtSt) :
    List (String × ZSchema) → Except String (List String × FmtSt)
  | [] => .ok ([], st)
  | (k, type) :: rest =>
    if (inputs.map Prod.fst).contains k then
      match format_field_value type ((inputs.lookup k).getD .undef) (some st.1) (uuidGen st.2) with
      | .error e => .error e
      | .ok (s, ctx?) =>
        let st1 : FmtSt := (ctx?.getD st.1, if is_custom_type type then st.2 + 1 else st.2)
        (fumcFields inputs st1 rest).map
          (fun pr => (("[[ ## " ++ k ++ " ## ]]\n" ++ s) :: pr.1, pr.2))
    else fumcFields inputs st rest

/-- Model of `ChatAdapter.format_user_message_content` (source:
`src/adapters/chat_adapter.ts`). -/
def format_user_message_content (sig : Signature) (inputs : List (String × Value))
    (st : FmtSt) (pre suf : String) (main_request : Bool) :
    Except String (String × FmtSt) := do
  let (fieldMsgs, st1) ← fumcFields inputs st sig.input
  let msgs := [pre] ++ fieldMsgs ++
    (if main_request then [user_message_output_requirements sig] else []) ++ [suf]
  .ok (jsTrim (String.intercalate "\n\n" (msgs.filter (fun s => s ≠ ""))), st1)

/-- Per-field loop of `ChatAdapter.format_field_with_value` (no context is
passed to `format_field_value` on this path). -/
def ffwvFields (values : List (String × Value)) :
    List (String × ZSchema) → Except String (List String)
  | [] => .ok []
  | (name, type) :: rest => do
    let r ← format_field_value type ((values.lookup name).getD .undef) none (uuidGen 0)
    let rs ← ffwvFields values rest
    .ok (("[[ ## " ++ name ++ " ## ]]\n" ++ r.1) :: rs)

/-- Model of `ChatAdapter.format_field_with_value`. -/
def format_field_with_value (fields : List (String × ZSchema))
    (values : List (String × Value)) : Except String String := do
  let rs ← ffwvFields values fields
  .ok (String.intercalate "\n\n" rs)

/-- Model of `ChatAdapter.format_field_description`. -/
def format_field_description (sig : Signature) : String :=
  "Your input fields are:\n" ++ get_field_description_string sig.input ++ "\n" ++
  "Your output fields are:\n" ++ get_field_description_string sig.output

/-- Model of `ChatAdapter.format_field_structure`. -/
def format_field_structure (sig : Signature) : Except String String := do
  let inputTypes := sig.input.map (fun p => (p.1, Value.str (translate_field_type p.1 p.2)))
  let outputTypes := sig.output.map (fun p => (p.1, Value.str (translate_field_type p.1 p.2)))
  let a ← format_field_with_value sig.input inputTypes
  let b ← format_field_with_value sig.output outputTypes
  .ok (jsTrim (String.intercalate "\n\n"
    ["All interactions will be structured in the following way, with the appropriate values filled in.",
     a, b, "[[ ## completed ## ]]\n"]))

/-- Model of `ChatAdapter.format_task_description`. -/
def format_task_description (sig : Signature) : String :=
  "In adhering to this structure, your objective is: " ++ sig.instructions.getD ""

/-- Model of `ChatAdapter.format_assistant_message_content`: each output
field's value, with `undefined`/`null` replaced by the missing-field
message when one is supplied, rendered without a context map. -/
def format_assistant_message_content (sig : Signature) (outputs : List (String × Value))
    (missing_field_message : Option String) : Except String String := do
  let outputs_map := sig.output.map (fun p => (p.1,
    match outputs.lookup p.1 with
    | some .undef => (match missing_field_message with | some m => Value.str m | none => Value.undef)
    | some .null => (match missing_field_message with | some m => Value.str m | none => Value.undef)
    | none => (match missing_field_message with | some m => Value.str m | none => Value.undef)
    | some v => v))
  let content ← format_field_with_value sig.output outputs_map
  .ok (content ++ "\n\n[[ ## completed ## ]]\n")

/-- Model of `demo[key] !== undefined && demo[key] !== null` for a looked-up
key (a missing key reads as `undefined`). -/
def isPresentNonNull : Option Value → Bool
  | some .undef => false
  | some .null => false
  | some _ => true
  | none => false

/-- Model of `demo[key] !== undefined`. -/
def isPresent : Option Value → Bool
  | some .undef => false
  | some _ => true
  | none => false

/-- The completeness test of `Adapter.format_demos` as written in the source
(`src/adapters/base.ts`): every *input* field present and non-null. -/
def demoIsComplete (sig : Signature) (demo : List (String × Value)) : Bool :=
  sig.input.all (fun p => isPresentNonNull (demo.lookup p.1))

def demoHasInput (sig : Signature) (demo : List (String × Value)) : Bool :=
  sig.input.any (fun p => isPresent (demo.lookup p.1))

def demoHasOutput (sig : Signature) (demo : List (String × Value)) : Bool :=
  sig.output.any (fun p => isPresent (demo.lookup p.1))

def incomplete_demo_message : String :=
  "This is an example of the task, though some input or output fields are not supplied."

/-- Renders one user/assistant message pair per demo, threading the
formatting state. -/
def demoPairs (sig : Signature) (pre missing : String) :
    FmtSt → List (List (String × Value)) → Except String (List Msg × FmtSt)
  | st, [] => .ok ([], st)
  | st, demo :: rest => do
    let (u, st1) ← format_user_message_content sig demo st pre "" false
    let a ← format_assistant_message_content sig demo (some missing)
    let (ms, st2) ← demoPairs sig pre missing st1 rest
    .ok (⟨.user, .text u⟩ :: ⟨.assistant, .text a⟩ :: ms, st2)

/-- Model of `Adapter.format_demos` (source: `src/adapters/base.ts`):
demos are partitioned into complete and incomplete-but-usable in one pass
(others are dropped); incomplete demos are rendered first with a disclaimer
prefix, complete demos after. -/
def format_demos (sig : Signature) (demos : List (List (String × Value)))
    (st : FmtSt) : Except String (List Msg × FmtSt) := do
  let parts := demos.foldl
    (fun (acc : List (List (String × Value)) × List (List (String × Value))) demo =>
      if demoIsComplete sig demo then (acc.1 ++ [demo], acc.2)
      else if demoHasInput sig demo && demoHasOutput sig demo then (acc.1, acc.2 ++ [demo])
      else acc)
    ([], [])
  let (im, st1) ← demoPairs sig incomplete_demo_message
    "Not supplied for this particular example. " st parts.2
  let (cm, st2) ← demoPairs sig ""
    "Not supplied for this conversation history message. " st1 parts.1
  .ok (im ++ cm, st2)

/-- Model of `Adapter._get_history_field_name`: the first input field whose
metadata carries `history: true`. -/
def _get_history_field_name (sig : Signature) : Option String :=
  (sig.input.find? (fun p =>
    match p.2.metaOf with
    | some m => m.history
    | none => false)).map Prod.fst

/-- Fields of a history record value (history records are objects). -/
def valueFields : Value → List (String × Value)
  | .obj fs => fs
  | _ => []

/-- Renders one user/assistant pair per conversation-history record.  The
assistant side is the source's `format_assistant_message_content(signature,
msg, context)` call, whose third argument lands in the options slot, so no
missing-field message is set on this path. -/
def histPairs (sig : Signature) :
    FmtSt → List Value → Except String (List Msg × FmtSt)
  | st, [] => .ok ([], st)
  | st, msg :: rest => do
    let fs := valueFields msg
    let (u, st1) ← format_user_message_content sig fs st "" "" false
    let a ← format_assistant_message_content sig fs none
    let (ms, st2) ← histPairs sig st1 rest
    .ok (⟨.user, .text u⟩ :: ⟨.assistant, .text a⟩ :: ms, st2)

/-- Model of `Adapter.format_conversation_history` (source:
`src/adapters/base.ts`): a missing or non-array history value yields no
messages.  (The `delete inputs[historyFieldName]` statement acts on the
shallow copy; its object-level effect is modelled by `heapFormatEffects`
below, and it is invisible to the pure message computation because the main
turn is rendered against the history-free signature.) -/
def format_conversation_history (sig : Signature) (historyFieldName : String)
    (inputs : List (String × Value)) (st : FmtSt) :
    Except String (List Msg × FmtSt) :=
  match inputs.lookup historyFieldName with
  | some (.arr history) => histPairs sig st history
  | _ => .ok ([], st)

/-- A `{type: "text", text: s}` content block. -/
def textBlock (s : String) : Value := .obj [("type", .str "text"), ("text", .str s)]

/-- Block expansion of one context entry (source:
`split_message_content_for_custom_types` in `src/adapters/types.ts`): a
custom type's `meta().format` is invoked on the stored value (array results
are spliced, which the model folds into the function returning a list); a
non-custom entry becomes a text block of the JS string coercion. -/
def applyCustomFormat (field : ZSchema) (value : Value) : List Value :=
  if is_custom_type field then
    match field.metaOf with
    | some m => (m.format.getD (fun _ => [])) value
    | none => []
  else [textBlock (jsString value)]

/-- Marker scan of one user message's text: finds
`<<CUSTOM-TYPE-START-IDENTIFIER>>id<<CUSTOM-TYPE-END-IDENTIFIER>>` spans
left to right (the lazy `(.*?)` stops at the first end marker), replacing
each with the expansion of the context entry for the trimmed id; text
between markers is kept as text blocks.  Returns `none` when the text
contains no marker pair (the message is left as plain text); an id missing
from the context is a thrown error. -/
def scanMarkers (ctx : Ctx) : Nat → List Char → Except String (Option (List Value))
  | 0, _ => .error "marker scan fuel exhausted"
  | Nat.succ f, cs =>
    match listIndexOfSub cs CUSTOM_TYPE_START_IDENTIFIER.toList with
    | none => .ok none
    | some i =>
      let after := cs.drop (i + CUSTOM_TYPE_START_IDENTIFIER.length)
      match listIndexOfSub after CUSTOM_TYPE_END_IDENTIFIER.toList with
      | none => .ok none
      | some j =>
        let id := jsTrim (String.mk (after.take j))
        match ctxLookup ctx id with
        | none => .error ("Custom type " ++ id ++ " not found in context")
        | some (field, value) => do
          let rest := after.drop (j + CUSTOM_TYPE_END_IDENTIFIER.length)
          let sub ← scanMarkers ctx f rest
          let tailBlocks :=
            match sub with
            | some bs => bs
            | none => if rest.isEmpty then [] else [textBlock (String.mk rest)]
          .ok (some ((if 0 < i then [textBlock (String.mk (cs.take i))] else []) ++
            applyCustomFormat field value ++ tailBlocks))

/-- Model of `split_message_content_for_custom_types` (source:
`src/adapters/types.ts`): only user messages with string content are
rewritten, and only when they contain at least one marker pair. -/
def split_message_content_for_custom_types (messages : List Msg) (ctx : Ctx) :
    Except String (List Msg) :=
  messages.mapM (fun m =>
    match m.role, m.content with
    | .user, .text content => do
      let r ← scanMarkers ctx (content.length + 1) content.toList
      match r with
      | none => .ok m
      | some bs => .ok (⟨Role.user, .blocks bs⟩ : Msg)
    | _, _ => .ok m)

/-- Model of `Adapter.format` (source: `src/adapters/base.ts`), with the
`ChatAdapter` implementations of the per-part methods: conversation history
is rendered first (against the signature without the history field), then
the system message, the demo pairs, the history pairs and the main user
turn are assembled in order, and the custom-type split pass runs last. -/
def format (sig : Signature) (demos : List (List (String × Value)))
    (inputs : List (String × Value)) : Except String (List Msg) := do
  let st0 : FmtSt := ([], 0)
  let historyFieldName := _get_history_field_name sig
  let (conversationHistory, st1) ←
    match historyFieldName with
    | some h => format_conversation_history (sig.deleteInput h) h inputs st0
    | none => pure (([] : List Msg), st0)
  let ffs ← format_field_structure sig
  let systemMessage := String.intercalate "\n"
    ([format_field_description sig, ffs, format_task_description sig].filter (fun s => s ≠ ""))
  let (demoMsgs, st2) ← format_demos sig demos st1
  let (mainContent, st3) ←
    match historyFieldName with
    | some h => format_user_message_content (sig.deleteInput h) inputs st2 "" "" true
    | none => format_user_message_content sig inputs st2 "" "" true
  let messages := (⟨Role.system, .text systemMessage⟩ : Msg) :: demoMsgs ++
    conversationHistory ++ [(⟨Role.user, .text mainContent⟩ : Msg)]
  split_message_content_for_custom_types messages st3.1

/-- A heap of JS objects, for the object-identity effects of `format`:
each object is a string-keyed record, referenced by its index. -/
abbrev Heap := List (List (String × Value))

/-- Model of `delete obj[name]` on the object at `ref`. -/
def heapDeleteField : Heap → Nat → String → Heap
  | [], _, _ => []
  | o :: t, 0, name => o.filter (fun p => p.1 ≠ name) :: t
  | o :: t, Nat.succ r, name => o :: heapDeleteField t r name

/-- Object-level effects of `Adapter.format` (source: `src/adapters/base.ts`):
`const inputsCopy = { ...inputs }` allocates a fresh shallow copy, and when a
history field exists, `format_conversation_history` executes
`delete inputs[historyFieldName]` on the object it received — the copy.
Returns the resulting heap together with the messages computed by the pure
pipeline from the copied contents. -/
def heapFormat (h : Heap) (inputsRef : Nat) (sig : Signature)
    (demos : List (List (String × Value))) : Heap × Except String (List Msg) :=
  let copyRef := h.length
  let h1 := h ++ [h.getD inputsRef []]
  let h2 :=
    match _get_history_field_name sig with
    | some name => heapDeleteField h1 copyRef name
    | none => h1
  (h2, format sig demos (h.getD inputsRef []))

lemma heapDeleteField_get_ne (l : Heap) (ref : Nat) (name : String) (i : Nat) (h : i ≠ ref) :
    (heapDeleteField l ref name).get? i = l.get? i := by
  induction l generalizing ref i with
  | nil => simp [heapDeleteField]
  | cons o t ih =>
    cases ref with
    | zero =>
      cases i with
      | zero => exact absurd rfl h
      | succ j => simp [heapDeleteField]
    | succ r =>
      cases i with
      | zero => simp [heapDeleteField]
      | succ j => simpa [heapDeleteField] using ih r j (by omega)

/-- C10: `Adapter.format` never mutates the caller's inputs object: the
history-field deletion acts only on the freshly allocated shallow copy, so
after the call the object the caller passed is unchanged on the heap. -/
theorem C10_format_preserves_caller_inputs (h : Heap) (inputsRef : Nat) (sig : Signature)
    (demos : List (List (String × Value))) (hr : inputsRef < h.length) :
    ((heapFormat h inputsRef sig demos).1).get? inputsRef = h.get? inputsRef := by
  unfold heapFormat
  cases hh : _get_history_field_name sig with
  | none => simpa using List.get?_append hr
  | some name =>
    simp only [hh]
    rw [heapDeleteField_get_ne _ _ _ _ (by omega)]
    simpa using List.get?_append hr

/-- Witness for C10 at a concrete heap with a history-carrying signature. -/
theorem C10_witness :
    0 < ([[("history", Value.arr []), ("question", Value.str "hi")]] : Heap).length ∧
    ((heapFormat [[("history", Value.arr []), ("question", Value.str "hi")]] 0
        { input := [("history", ZSchema.withMeta (.arr (.obj [])) { history := true }),
                    ("question", ZSchema.str)],
          output := [("answer", ZSchema.str)] } []).1).get? 0 =
      ([[("history", Value.arr []), ("question", Value.str "hi")]] : Heap).get? 0 :=
  ⟨by decide, C10_format_preserves_caller_inputs _ 0 _ [] (by decide)⟩

/-- C1 counterexample: when both fallback guards pass and the secondary
JSONAdapter attempt itself fails, the error surfaced is the *secondary*
attempt's error, not the original error re-raised as the claim states. -/
theorem C1_counterexample :
    (chatAdapterRun (E := String) (R := Unit) false true
        (.error "primary parse failure") (.error "secondary parse failure")).1 =
      .error "secondary parse failure" ∧
    (Except.error "secondary parse failure" : Except String Unit) ≠
      .error "primary parse failure" := by
  refine ⟨rfl, fun h => ?_⟩
  injection h with h'
  exact absurd h' (by decide)

/-- C1 (amended): on a pipeline failure the run is retried with a fresh
JSONAdapter exactly once if and only if the instance is not a JSONAdapter
and `use_json_adapter_fallback` is enabled; if either guard fails the
original error is re-raised unchanged; if both guards pass the secondary
attempt's own outcome (including its own failure) is returned, and the
JSONAdapter is never invoked more than once — there is no third attempt. -/
theorem C1_fallback_once {E R : Type} (isJson useFb : Bool) (primary secondary : Except E R) :
    (∀ v, primary = .ok v → chatAdapterRun isJson useFb primary secondary = (.ok v, 0)) ∧
    (∀ e, primary = .error e → (isJson || !useFb) = true →
      chatAdapterRun isJson useFb primary secondary = (.error e, 0)) ∧
    (∀ e, primary = .error e → isJson = false → useFb = true →
      chatAdapterRun isJson useFb primary secondary = (secondary, 1)) ∧
    ((chatAdapterRun isJson useFb primary secondary).2 = 1 ↔
      ((∃ e, primary = .error e) ∧ isJson = false ∧ useFb = true)) ∧
    (chatAdapterRun isJson useFb primary secondary).2 ≤ 1 := by
  refine ⟨?_, ?_, ?_, ?_, ?_⟩
  · rintro v rfl; rfl
  · rintro e rfl hg; simp [chatAdapterRun, hg]
  · rintro e rfl h1 h2; simp [chatAdapterRun, h1, h2, jsonAdapterRun]
  · constructor
    · intro h
      cases primary with
      | ok v => simp [chatAdapterRun] at h
      | error e =>
        cases isJson with
        | true => simp [chatAdapterRun] at h
        | false =>
          cases useFb with
          | true => exact ⟨⟨e, rfl⟩, rfl, rfl⟩
          | false => simp [chatAdapterRun] at h
    · rintro ⟨⟨e, rfl⟩, rfl, rfl⟩
      simp [chatAdapterRun, jsonAdapterRun]
  · cases primary with
    | ok v => simp [chatAdapterRun]
    | error e =>
      cases isJson <;> cases useFb <;> simp [chatAdapterRun, jsonAdapterRun]

/-- Witness for C1: a failing primary with both guards passing hands back
the secondary outcome after exactly one JSONAdapter invocation. -/
theorem C1_fallback_once_witness :
    chatAdapterRun (E := String) (R := Nat) false true (.error "boom") (.ok 7) = (.ok 7, 1) :=
  (C1_fallback_once false true (.error "boom") (.ok 7)).2.2.1 "boom" rfl rfl rfl

/-- Schema graph of `const t = z.lazy(() => z.object({ self: t }))`: node 0
is the lazy schema whose getter returns node 1, the object schema whose
`self` field is node 0 again. -/
def cyclicSelfEnv : GEnv := [(none, GDef.lazy 1), (none, GDef.object [("self", 0)])]

/-- C5: `get_annotation_name` has no visited-set or depth limit, so on a
self-referential lazy schema the recursion never returns a name, for any
amount of call-stack fuel — contradicting the claimed termination
invariant. -/
theorem C5_lazy_self_reference_diverges :
    ∀ fuel : Nat, get_annotation_name cyclicSelfEnv fuel 0 = none ∧
      get_annotation_name cyclicSelfEnv fuel 1 = none := by
  intro fuel
  induction fuel with
  | zero => exact ⟨rfl, rfl⟩
  | succ f ih =>
    refine ⟨?_, ?_⟩
    · have h1 : get_annotation_name cyclicSelfEnv (f + 1) 0 =
        (get_annotation_name cyclicSelfEnv f 1).map (fun s => "lazy(() => " ++ s ++ ")") := rfl
      rw [h1, ih.2]; rfl
    · have h1 : get_annotation_name cyclicSelfEnv (f + 1) 1 =
        (List.mapM (fun p => (get_annotation_name cyclicSelfEnv f p.2).map
            (fun s => p.1 ++ ": " ++ s)) [("self", (0 : Nat))]).map
          (fun fields => "object(\x7b " ++ String.intercalate ", " fields ++ " \x7d)") := rfl
      rw [h1]
      simp [List.mapM, List.mapM.loop, ih.1]

def C3sig : Signature := { input := [("q", ZSchema.str)], output := [("a", ZSchema.str)] }

def C3demo : List (String × Value) := [("q", Value.str "x")]

/-- C3: a demo carrying every input field but no output field at all is
classified as *complete* by `format_demos` (whose completeness check reads
only the input shape, contradicting its own "all fields" comment) and is
rendered as a full user/assistant pair, where the claim requires it to
contribute no messages. -/
theorem C3_all_inputs_no_outputs_rendered :
    format_demos C3sig [C3demo] ([], 0) =
      .ok ([⟨Role.user, .text "[[ ## q ## ]]\n\"x\""⟩,
            ⟨Role.assistant, .text
              "[[ ## a ## ]]\n\"Not supplied for this conversation history message. \"\n\n[[ ## completed ## ]]\n"⟩],
           ([], 0)) ∧
    demoIsComplete C3sig C3demo = true ∧
    isPresent (C3demo.lookup "a") = false := by
  exact ⟨rfl, rfl, rfl⟩

lemma listIndexOfSub_single_notMem (c : Char) (al bl : List Char) (h : c ∉ al) :
    listIndexOfSub (al ++ c :: bl) [c] = some al.length := by
  induction al with
  | nil => simp [listIndexOfSub, List.isPrefixOf]
  | cons a t ih =>
    have hca : (c == a) = false := by
      simp only [beq_eq_false_iff_ne, ne_eq]
      intro hh
      exact h (hh ▸ List.mem_cons_self a t)
    have ht : c ∉ t := fun hm => h (List.mem_cons_of_mem a hm)
    simp [listIndexOfSub, List.isPrefixOf, hca, ih ht]

lemma listIndexOfSub_single_isSome_of_mem (c : Char) (l : List Char) (h : c ∈ l) :
    (listIndexOfSub l [c]).isSome := by
  induction l with
  | nil => simp at h
  | cons a t ih =>
    by_cases hca : c = a
    · subst hca
      simp [listIndexOfSub, List.isPrefixOf]
    · rcases List.mem_cons.mp h with h1 | h2
      · exact absurd h1 hca
      · have := ih h2
        simp only [listIndexOfSub, List.isPrefixOf]
        split
        · simp
        · simpa using this

lemma not_mem_of_strIncludes_false (s : String) (c : Char)
    (h : strIncludes s (String.mk [c]) = false) : c ∉ s.toList := by
  intro hm
  have := listIndexOfSub_single_isSome_of_mem c s.toList hm
  rw [strIncludes] at h
  simp only [String.toList] at h this
  rw [h] at this
  cases this

lemma string_toList_append (a b : String) : (a ++ b).toList = a.toList ++ b.toList := by
  simp [String.toList, String.data_append]

lemma replaceFirst_eq (s pat rep : String) (i : Nat)
    (hidx : listIndexOfSub s.toList pat.toList = some i) :
    replaceFirst s pat rep =
      String.mk (s.toList.take i ++ rep.toList ++ s.toList.drop (i + pat.length)) := by
  unfold replaceFirst
  rw [hidx]

lemma replaceFirst_first_newline (a b rep : String) (h : '\n' ∉ a.toList) :
    replaceFirst (a ++ "\n" ++ b) "\n" rep = a ++ rep ++ b := by
  have hl : (a ++ "\n" ++ b).toList = a.toList ++ '\n' :: b.toList := by
    rw [string_toList_append, string_toList_append]
    simp
  have hidx : listIndexOfSub ((a ++ "\n" ++ b).toList) ("\n".toList) = some a.toList.length := by
    rw [hl]
    exact listIndexOfSub_single_notMem '\n' a.toList b.toList h
  rw [replaceFirst_eq _ _ _ _ hidx, hl]
  rw [List.take_left]
  have hdrop : (a.toList ++ '\n' :: b.toList).drop (a.toList.length + "\n".length) = b.toList := by
    have h2 : a.toList ++ '\n' :: b.toList = a.toList ++ ['\n'] ++ b.toList :=
      List.append_cons _ _ _
    rw [h2]
    have hlen : a.toList.length + ("\n" : String).length = (a.toList ++ ['\n']).length := by
      rw [List.length_append]
      rfl
    rw [hlen, List.drop_left]
  rw [hdrop]
  have hr : (a ++ rep ++ b).toList = a.toList ++ rep.toList ++ b.toList := by
    rw [string_toList_append, string_toList_append]
  rw [← hr]
  rfl

/-- C8 counterexample: a three-line blob is *not* indented on every
continuation line (only the text after the first newline is, because the JS
`replace` with a string pattern replaces one occurrence), and a one-line
single-element item containing `«` is not rendered as `«item»`. -/
theorem C8_counterexample :
    _format_input_list_field_value ["a\nb\nc"] = "«««\n    a\n    b\nc\n»»»" ∧
    "«««\n    a\n    b\nc\n»»»" ≠ "«««\n    a\n    b\n    c\n»»»" ∧
    _format_input_list_field_value ["«x"] = "«««\n    «x\n»»»" ∧
    "«««\n    «x\n»»»" ≠ "««x»" :=
  ⟨rfl, by decide, rfl, by decide⟩

/-- C8 (amended): an empty string array renders as `"N/A"`; a one-element
array of a one-line string free of `«` and `»` renders as `«item»`; a
multi-element array renders one `"[i] ..."` line per element with each
element passed through the blob rule; and a blob containing a newline is
wrapped in a `«««...»»»` block whose indentation is inserted only after the
*first* newline (later continuation lines appear verbatim). -/
theorem C8_list_rendering :
    _format_input_list_field_value [] = "N/A" ∧
    (∀ s : String, strIncludes s "\n" = false → strIncludes s "«" = false →
      strIncludes s "»" = false →
      _format_input_list_field_value [s] = "«" ++ s ++ "»") ∧
    (∀ xs : List String, 2 ≤ xs.length →
      _format_input_list_field_value xs =
        String.intercalate "\n"
          (xs.enum.map (fun p => "[" ++ toString (p.1 + 1) ++ "] " ++ _format_blob p.2))) ∧
    (∀ a b : String, strIncludes a "\n" = false →
      _format_blob (a ++ "\n" ++ b) = "«««\n    " ++ (a ++ "\n    " ++ b) ++ "\n»»»") := by
  refine ⟨rfl, ?_, ?_, ?_⟩
  · intro s h1 h2 h3
    simp [_format_input_list_field_value, _format_blob, h1, h2, h3]
  · intro xs hlen
    rw [_format_input_list_field_value]
    rw [if_neg (by omega), dif_neg (by omega)]
  · intro a b h
    have hmem : '\n' ∉ a.toList := not_mem_of_strIncludes_false a '\n' h
    have hinc : strIncludes (a ++ "\n" ++ b) "\n" = true := by
      rw [strIncludes]
      have hl : (a ++ "\n" ++ b).toList = a.toList ++ '\n' :: b.toList := by
        rw [string_toList_append, string_toList_append]; simp
      rw [hl, show ("\n" : String).toList = ['\n'] from rfl,
        listIndexOfSub_single_notMem '\n' a.toList b.toList hmem]
      rfl
    rw [_format_blob, if_neg (by simp [hinc])]
    rw [replaceFirst_first_newline a b "\n    " hmem]

/-- Witness for C8 at concrete one-, two- and multi-line inputs. -/
theorem C8_list_rendering_witness :
    _format_input_list_field_value ["hi"] = "«hi»" ∧
    _format_input_list_field_value ["x", "y"] = "[1] «x»\n[2] «y»" ∧
    _format_blob ("p" ++ "\n" ++ "q\nr") = "«««\n    " ++ ("p" ++ "\n    " ++ "q\nr") ++ "\n»»»" := by
  obtain ⟨-, h2, h3, h4⟩ := C8_list_rendering
  refine ⟨h2 "hi" rfl rfl rfl, ?_, h4 "p" "q\nr" rfl⟩
  rw [h3 ["x", "y"] (by decide)]
  rfl

lemma contains_false_of_lookup_none {β : Type} (l : List (String × β)) (k : String)
    (h : List.lookup k l = none) : (l.map Prod.fst).contains k = false := by
  induction l with
  | nil => rfl
  | cons p t ih =>
    obtain ⟨k1, v1⟩ := p
    rw [List.lookup] at h
    cases hk : (k == k1) with
    | true => rw [hk] at h; cases h
    | false =>
      rw [hk] at h
      simpa [List.contains_cons, hk] using ih h

lemma lookup_append_singleton_self (ctx : Ctx) (id : String) (e : ZSchema × Value)
    (h : ctxLookup ctx id = none) : ctxLookup (ctx ++ [(id, e)]) id = some e := by
  induction ctx with
  | nil => simp [ctxLookup, List.lookup]
  | cons p t ih =>
    obtain ⟨k1, v1⟩ := p
    rw [ctxLookup, List.lookup] at h
    rw [ctxLookup, List.cons_append, List.lookup]
    cases hk : (id == k1) with
    | true => rw [hk] at h; cases h
    | false =>
      rw [hk] at h
      exact ih h

lemma lookup_append_singleton_ne (ctx : Ctx) (id j : String) (e : ZSchema × Value)
    (hne : j ≠ id) : ctxLookup (ctx ++ [(id, e)]) j = ctxLookup ctx j := by
  induction ctx with
  | nil =>
    rw [ctxLookup, List.nil_append, ctxLookup]
    cases hk : (j == id) with
    | true => exact absurd (beq_iff_eq.mp hk) hne
    | false => simp [List.lookup, hk]
  | cons p t ih =>
    obtain ⟨k1, v1⟩ := p
    rw [ctxLookup, List.cons_append, List.lookup, ctxLookup, List.lookup]
    cases hk : (j == k1) with
    | true => rfl
    | false => exact ih

lemma ctxInsert_fresh (ctx : Ctx) (id : String) (e : ZSchema × Value)
    (h : ctxLookup ctx id = none) : ctxInsert ctx id e = ctx ++ [(id, e)] := by
  unfold ctxInsert
  rw [contains_false_of_lookup_none ctx id h]
  simp

/-- C4: formatting a custom-type value with a live context map emits the
`<<CUSTOM-TYPE-START-IDENTIFIER>>id<<CUSTOM-TYPE-END-IDENTIFIER>>` marker for
the freshly generated id, stores exactly one new `{type, value}` entry under
that id (the stored value equal to the original, all other entries
untouched), and the marker differs from the original value, the reserved
delimiter never occurring in field text; without a context map a string
value passes through verbatim and every non-string value raises the
context-required error. -/
theorem C4_custom_type_encoding (field : ZSchema) (value : Value) (ctx : Ctx) (id : String)
    (hcustom : is_custom_type field = true)
    (hfresh : ctxLookup ctx id = none)
    (hreserved : ∀ s r, value = Value.str s → s ≠ CUSTOM_TYPE_START_IDENTIFIER ++ r) :
    format_field_value field value (some ctx) id =
      .ok (CUSTOM_TYPE_START_IDENTIFIER ++ id ++ CUSTOM_TYPE_END_IDENTIFIER,
        some (ctx ++ [(id, (field, value))])) ∧
    ctxLookup (ctx ++ [(id, (field, value))]) id = some (field, value) ∧
    (∀ j, j ≠ id → ctxLookup (ctx ++ [(id, (field, value))]) j = ctxLookup ctx j) ∧
    (ctx ++ [(id, (field, value))]).length = ctx.length + 1 ∧
    Value.str (CUSTOM_TYPE_START_IDENTIFIER ++ id ++ CUSTOM_TYPE_END_IDENTIFIER) ≠ value ∧
    (∀ s, format_field_value field (Value.str s) none id = .ok (s, none)) ∧
    ((∀ s, value ≠ Value.str s) →
      format_field_value field value none id =
        .error "Context dict is required to format custom types") := by
  refine ⟨?_, ?_, ?_, ?_, ?_, ?_, ?_⟩
  · simp [format_field_value, hcustom, ctxInsert_fresh ctx id (field, value) hfresh]
  · exact lookup_append_singleton_self ctx id (field, value) hfresh
  · intro j hj; exact lookup_append_singleton_ne ctx id j (field, value) hj
  · simp
  · intro heq
    cases value with
    | str s =>
      have hs : CUSTOM_TYPE_START_IDENTIFIER ++ id ++ CUSTOM_TYPE_END_IDENTIFIER = s :=
        Value.str.inj heq
      refine hreserved s (id ++ CUSTOM_TYPE_END_IDENTIFIER) rfl ?_
      rw [← hs, String.append_assoc]
    | undef => cases heq
    | null => cases heq
    | bool b => cases heq
    | num q => cases heq
    | arr xs => cases heq
    | obj fs => cases heq
  · intro s; simp [format_field_value, hcustom]
  · intro hns
    cases value with
    | str s => exact absurd rfl (hns s)
    | undef => simp [format_field_value, hcustom]
    | null => simp [format_field_value, hcustom]
    | bool b => simp [format_field_value, hcustom]
    | num q => simp [format_field_value, hcustom]
    | arr xs => simp [format_field_value, hcustom]
    | obj fs => simp [format_field_value, hcustom]

/-- A concrete custom type (an image-like schema with metadata name and
format function). -/
def C4field : ZSchema :=
  .withMeta .str
    { name := some "Image",
      format := some (fun v => [Value.obj [("type", .str "image"), ("image", v)]]) }

/-- Witness for C4 at a concrete custom field, value, fresh id and empty
context. -/
theorem C4_witness :
    format_field_value C4field (Value.str "photo-url") (some []) "uuid-0" =
      .ok (CUSTOM_TYPE_START_IDENTIFIER ++ "uuid-0" ++ CUSTOM_TYPE_END_IDENTIFIER,
        some [("uuid-0", (C4field, Value.str "photo-url"))]) ∧
    Value.str (CUSTOM_TYPE_START_IDENTIFIER ++ "uuid-0" ++ CUSTOM_TYPE_END_IDENTIFIER) ≠
      Value.str "photo-url" := by
  have h := C4_custom_type_encoding C4field (Value.str "photo-url") [] "uuid-0" rfl rfl ?hres
  · exact ⟨h.1, h.2.2.2.2.1⟩
  case hres =>
    intro s r heq hcontra
    have hs : "photo-url" = s := Value.str.inj heq
    have hlen := congrArg String.length (hs.trans hcontra)
    rw [String.length_append] at hlen
    rw [show ("photo-url" : String).length = 9 from rfl] at hlen
    rw [show CUSTOM_TYPE_START_IDENTIFIER.length = 32 from rfl] at hlen
    omega

lemma jsonOk_imp_jsOk (p : DecParts) (h : jsonOkParts p = true) : jsOkParts p = true := by
  unfold jsonOkParts at h
  unfold jsOkParts
  simp only [Bool.and_eq_true] at h
  obtain ⟨⟨⟨⟨-, h2⟩, -⟩, -⟩, h5⟩ := h
  simp only [Bool.and_eq_true, Bool.or_eq_true]
  exact ⟨Or.inl (by simpa using h2), h5⟩

lemma jsonValueP_composite (f : Nat) (c : Char) (r : List Char) (v : Value) (rest : List Char)
    (hc : c = '"' ∨ c = '[' ∨ c = '{')
    (h : jsonValueP f (c :: r) = some (v, rest)) :
    (∃ s, v = Value.str s) ∨ (∃ xs, v = Value.arr xs) ∨ (∃ fs, v = Value.obj fs) := by
  cases f with
  | zero => exact absurd h (by rw [jsonValueP]; exact fun hh => Option.noConfusion hh)
  | succ f =>
    rcases hc with rfl | rfl | rfl
    · have hv : jsonValueP (Nat.succ f) ('"' :: r) =
        (jsonStringBody (Nat.succ f) r).map (fun pr => (Value.str (String.mk pr.1), pr.2)) := rfl
      rw [hv] at h
      rcases hb : jsonStringBody (Nat.succ f) r with - | pr
      · rw [hb] at h; cases h
      · rw [hb] at h
        exact Or.inl ⟨String.mk pr.1, by injection h with h1; injection h1; simp_all⟩
    · have hv : jsonValueP (Nat.succ f) ('[' :: r) =
        (match skipWs r with
         | ']' :: r2 => some (Value.arr [], r2)
         | r2 => (jsonElemsP f r2).map (fun pr => (Value.arr pr.1, pr.2))) := rfl
      rw [hv] at h
      refine Or.inr (Or.inl ?_)
      rcases hsw : skipWs r with - | ⟨c2, r2⟩ <;> rw [hsw] at h
      · have h2 : (jsonElemsP f []).map (fun pr => (Value.arr pr.1, pr.2)) = some (v, rest) := h
        rcases he : jsonElemsP f [] with - | pr <;> rw [he] at h2
        · cases h2
        · exact ⟨pr.1, by injection h2 with h1; injection h1; simp_all⟩
      · by_cases hc2 : c2 = ']'
        · subst hc2
          exact ⟨[], by injection h with h1; injection h1; simp_all⟩
        · have hm : (match c2 :: r2 with
            | ']' :: r2 => some (Value.arr [], r2)
            | r2 => (jsonElemsP f r2).map (fun pr => (Value.arr pr.1, pr.2))) =
              (jsonElemsP f (c2 :: r2)).map (fun pr => (Value.arr pr.1, pr.2)) := by
            cases hcc : c2 <;> simp_all
          rw [hm] at h
          rcases he : jsonElemsP f (c2 :: r2) with - | pr <;> rw [he] at h
          · cases h
          · exact ⟨pr.1, by injection h with h1; injection h1; simp_all⟩
    · have hv : jsonValueP (Nat.succ f) ('{' :: r) =
        (match skipWs r with
         | '}' :: r2 => some (Value.obj [], r2)
         | r2 => (jsonMembersP f r2).map (fun pr => (Value.obj pr.1, pr.2))) := rfl
      rw [hv] at h
      refine Or.inr (Or.inr ?_)
      rcases hsw : skipWs r with - | ⟨c2, r2⟩ <;> rw [hsw] at h
      · have h2 : (jsonMembersP f []).map (fun pr => (Value.obj pr.1, pr.2)) = some (v, rest) := h
        rcases he : jsonMembersP f [] with - | pr <;> rw [he] at h2
        · cases h2
        · exact ⟨pr.1, by injection h2 with h1; injection h1; simp_all⟩
      · by_cases hc2 : c2 = '}'
        · subst hc2
          exact ⟨[], by injection h with h1; injection h1; simp_all⟩
        · have hm : (match c2 :: r2 with
            | '}' :: r2 => some (Value.obj [], r2)
            | r2 => (jsonMembersP f r2).map (fun pr => (Value.obj pr.1, pr.2))) =
              (jsonMembersP f (c2 :: r2)).map (fun pr => (Value.obj pr.1, pr.2)) := by
            cases hcc : c2 <;> simp_all
          rw [hm] at h
          rcases he : jsonMembersP f (c2 :: r2) with - | pr <;> rw [he] at h
          · cases h
          · exact ⟨pr.1, by injection h with h1; injection h1; simp_all⟩

lemma jsonParse_bool (s : String) (b : Bool) (h : jsonParse s = some (.bool b)) :
    jsTrim s = (if b then "true" else "false") := by
  simp only [jsonParse] at h
  by_cases h1 : jsTrim s = "true"
  · rw [if_pos h1] at h
    injection h with hv
    injection hv with hb
    rw [← hb]
    exact h1
  · rw [if_neg h1] at h
    by_cases h2 : jsTrim s = "false"
    · rw [if_pos h2] at h
      injection h with hv
      injection hv with hb
      rw [← hb]
      exact h2
    · rw [if_neg h2] at h
      by_cases h3 : jsTrim s = "null"
      · rw [if_pos h3] at h
        injection h with hv
        cases hv
      · rw [if_neg h3] at h
        rcases ht : (jsTrim s).toList with - | ⟨c, tl⟩ <;> rw [ht] at h
        · cases h
        · have hcons : (if c = '"' ∨ c = '[' ∨ c = '{' then
              (match jsonValueP ((jsTrim s).length + 1) (c :: tl) with
               | some (v, rest) => if skipWs rest = [] then some v else none
               | none => none)
            else
              (match splitNum (c :: tl) with
               | some p => if jsonOkParts p then some (Value.num (evalDec p)) else none
               | none => none)) = some (Value.bool b) := h
          by_cases hcomp : c = '"' ∨ c = '[' ∨ c = '{'
          · rw [if_pos hcomp] at hcons
            rcases hjv : jsonValueP ((jsTrim s).length + 1) (c :: tl) with - | ⟨v, rest⟩ <;>
              rw [hjv] at hcons
            · cases hcons
            · have h4 : (if skipWs rest = [] then some v else none) = some (Value.bool b) := hcons
              rcases jsonValueP_composite _ c tl v rest hcomp hjv with ⟨w, rfl⟩ | ⟨w, rfl⟩ | ⟨w, rfl⟩ <;>
                · split at h4
                  · injection h4 with hv2; cases hv2
                  · cases h4
          · rw [if_neg hcomp] at hcons
            rcases hsn : splitNum (c :: tl) with - | p <;> rw [hsn] at hcons
            · cases hcons
            · have h4 : (if jsonOkParts p then some (Value.num (evalDec p)) else none) =
                some (Value.bool b) := hcons
              split at h4
              · injection h4 with hv2; cases hv2
              · cases h4

lemma toList_ne_nil_of_cons {t : String} {c : Char} {tl : List Char}
    (ht : t.toList = c :: tl) : t ≠ "" := by
  intro he
  rw [he] at ht
  cases ht

lemma jsonParse_num (s : String) (q : ℚ) (h : jsonParse s = some (.num q)) :
    jsToNumber s = some (.fin q) := by
  simp only [jsonParse] at h
  by_cases h1 : jsTrim s = "true"
  · rw [if_pos h1] at h; injection h with hv; cases hv
  · rw [if_neg h1] at h
    by_cases h2 : jsTrim s = "false"
    · rw [if_pos h2] at h; injection h with hv; cases hv
    · rw [if_neg h2] at h
      by_cases h3 : jsTrim s = "null"
      · rw [if_pos h3] at h; injection h with hv; cases hv
      · rw [if_neg h3] at h
        rcases ht : (jsTrim s).toList with - | ⟨c, tl⟩ <;> rw [ht] at h
        · cases h
        · have hcons : (if c = '"' ∨ c = '[' ∨ c = '{' then
              (match jsonValueP ((jsTrim s).length + 1) (c :: tl) with
               | some (v, rest) => if skipWs rest = [] then some v else none
               | none => none)
            else
              (match splitNum (c :: tl) with
               | some p => if jsonOkParts p then some (Value.num (evalDec p)) else none
               | none => none)) = some (Value.num q) := h
          by_cases hcomp : c = '"' ∨ c = '[' ∨ c = '{'
          · rw [if_pos hcomp] at hcons
            rcases hjv : jsonValueP ((jsTrim s).length + 1) (c :: tl) with - | ⟨v, rest⟩ <;>
              rw [hjv] at hcons
            · cases hcons
            · have h4 : (if skipWs rest = [] then some v else none) = some (Value.num q) := hcons
              rcases jsonValueP_composite _ c tl v rest hcomp hjv with ⟨w, rfl⟩ | ⟨w, rfl⟩ | ⟨w, rfl⟩ <;>
                · split at h4
                  · injection h4 with hv2; cases hv2
                  · cases h4
          · rw [if_neg hcomp] at hcons
            rcases hsn : splitNum (c :: tl) with - | p <;> rw [hsn] at hcons
            · cases hcons
            · have h4 : (if jsonOkParts p then some (Value.num (evalDec p)) else none) =
                some (Value.num q) := hcons
              rcases hok : jsonOkParts p with - | -
              · rw [hok] at h4; cases h4
              · rw [hok, if_pos rfl] at h4
                injection h4 with hv2
                injection hv2 with hq
                unfold jsToNumber
                rw [if_neg (toList_ne_nil_of_cons ht)]
                rw [ht, hsn]
                simp only [jsonOk_imp_jsOk p hok, if_true, hq]

/-- C6: coercion of a section text against a boolean field maps the trimmed
text `true`/`false` (case-insensitively) to the booleans and fails on every
other text; against a number field, text the JS `Number(...)` conversion
evaluates to a finite number maps to exactly that number, and any other text
(including non-finite results) is a coercion failure. -/
theorem C6_scalar_coercion (s : String) :
    (jsToLowerStr (jsTrim s) = "true" → parseValue .bool s = some (.bool true)) ∧
    (jsToLowerStr (jsTrim s) = "false" → parseValue .bool s = some (.bool false)) ∧
    (jsToLowerStr (jsTrim s) ≠ "true" → jsToLowerStr (jsTrim s) ≠ "false" →
      parseValue .bool s = none) ∧
    (∀ q : ℚ, jsToNumber s = some (.fin q) → parseValue .num s = some (.num q)) ∧
    ((∀ q : ℚ, jsToNumber s ≠ some (.fin q)) → parseValue .num s = none) := by
  refine ⟨?_, ?_, ?_, ?_, ?_⟩
  · intro ht
    rcases hj : jsonParse s with - | v
    · simp [parseValue, isZodString, isZodNumber, isZodBoolean, ZSchema.stripMeta, hj, ht,
        zodParse]
    · cases v with
      | bool b =>
        cases b with
        | true => simp [parseValue, isZodString, isZodNumber, isZodBoolean, ZSchema.stripMeta,
            hj, zodParse]
        | false =>
          have hb := jsonParse_bool s false hj
          simp only [if_false, Bool.false_eq_true] at hb
          rw [hb] at ht
          exact absurd ht (by decide)
      | undef => simp [parseValue, isZodString, isZodNumber, isZodBoolean, ZSchema.stripMeta,
          hj, ht, zodParse]
      | null => simp [parseValue, isZodString, isZodNumber, isZodBoolean, ZSchema.stripMeta,
          hj, ht, zodParse]
      | num q => simp [parseValue, isZodString, isZodNumber, isZodBoolean, ZSchema.stripMeta,
          hj, ht, zodParse]
      | str w => simp [parseValue, isZodString, isZodNumber, isZodBoolean, ZSchema.stripMeta,
          hj, ht, zodParse]
      | arr xs => simp [parseValue, isZodString, isZodNumber, isZodBoolean, ZSchema.stripMeta,
          hj, ht, zodParse]
      | obj fs => simp [parseValue, isZodString, isZodNumber, isZodBoolean, ZSchema.stripMeta,
          hj, ht, zodParse]
  · intro ht
    rcases hj : jsonParse s with - | v
    · simp [parseValue, isZodString, isZodNumber, isZodBoolean, ZSchema.stripMeta, hj, ht,
        zodParse]
    · cases v with
      | bool b =>
        cases b with
        | false => simp [parseValue, isZodString, isZodNumber, isZodBoolean, ZSchema.stripMeta,
            hj, zodParse]
        | true =>
          have hb := jsonParse_bool s true hj
          simp only [if_true] at hb
          rw [hb] at ht
          exact absurd ht (by decide)
      | undef => simp [parseValue, isZodString, isZodNumber, isZodBoolean, ZSchema.stripMeta,
          hj, ht, zodParse]
      | null => simp [parseValue, isZodString, isZodNumber, isZodBoolean, ZSchema.stripMeta,
          hj, ht, zodParse]
      | num q => simp [parseValue, isZodString, isZodNumber, isZodBoolean, ZSchema.stripMeta,
          hj, ht, zodParse]
      | str w => simp [parseValue, isZodString, isZodNumber, isZodBoolean, ZSchema.stripMeta,
          hj, ht, zodParse]
      | arr xs => simp [parseValue, isZodString, isZodNumber, isZodBoolean, ZSchema.stripMeta,
          hj, ht, zodParse]
      | obj fs => simp [parseValue, isZodString, isZodNumber, isZodBoolean, ZSchema.stripMeta,
          hj, ht, zodParse]
  · intro h1 h2
    rcases hj : jsonParse s with - | v
    · simp [parseValue, isZodString, isZodNumber, isZodBoolean, ZSchema.stripMeta, hj, h1, h2,
        zodParse]
    · cases v with
      | bool b =>
        have hb := jsonParse_bool s b hj
        cases b with
        | true =>
          simp only [if_true] at hb
          rw [hb] at h1
          exact absurd (by decide) h1
        | false =>
          simp only [if_false, Bool.false_eq_true] at hb
          rw [hb] at h2
          exact absurd (by decide) h2
      | undef => simp [parseValue, isZodString, isZodNumber, isZodBoolean, ZSchema.stripMeta,
          hj, h1, h2, zodParse]
      | null => simp [parseValue, isZodString, isZodNumber, isZodBoolean, ZSchema.stripMeta,
          hj, h1, h2, zodParse]
      | num q => simp [parseValue, isZodString, isZodNumber, isZodBoolean, ZSchema.stripMeta,
          hj, h1, h2, zodParse]
      | str w => simp [parseValue, isZodString, isZodNumber, isZodBoolean, ZSchema.stripMeta,
          hj, h1, h2, zodParse]
      | arr xs => simp [parseValue, isZodString, isZodNumber, isZodBoolean, ZSchema.stripMeta,
          hj, h1, h2, zodParse]
      | obj fs => simp [parseValue, isZodString, isZodNumber, isZodBoolean, ZSchema.stripMeta,
          hj, h1, h2, zodParse]
  · intro q hq
    rcases hj : jsonParse s with - | v
    · simp [parseValue, isZodString, isZodNumber, isZodBoolean, ZSchema.stripMeta, hj, hq,
        zodParse]
    · cases v with
      | num q0 =>
        have hn := jsonParse_num s q0 hj
        rw [hq] at hn
        injection hn with hn2
        injection hn2 with hn3
        subst hn3
        simp [parseValue, isZodString, isZodNumber, isZodBoolean, ZSchema.stripMeta, hj,
          zodParse]
      | undef => simp [parseValue, isZodString, isZodNumber, isZodBoolean, ZSchema.stripMeta,
          hj, hq, zodParse]
      | null => simp [parseValue, isZodString, isZodNumber, isZodBoolean, ZSchema.stripMeta,
          hj, hq, zodParse]
      | bool b => simp [parseValue, isZodString, isZodNumber, isZodBoolean, ZSchema.stripMeta,
          hj, hq, zodParse]
      | str w => simp [parseValue, isZodString, isZodNumber, isZodBoolean, ZSchema.stripMeta,
          hj, hq, zodParse]
      | arr xs => simp [parseValue, isZodString, isZodNumber, isZodBoolean, ZSchema.stripMeta,
          hj, hq, zodParse]
      | obj fs => simp [parseValue, isZodString, isZodNumber, isZodBoolean, ZSchema.stripMeta,
          hj, hq, zodParse]
  · intro hq
    have hfb : (match jsToNumber s with
        | some (.fin q) => zodParse ZSchema.num (Value.num q)
        | some .inf => none
        | some .ninf => none
        | none => none) = (none : Option Value) := by
      rcases hn : jsToNumber s with - | j
      · rfl
      · cases j with
        | fin q0 => exact absurd hn (hq q0)
        | inf => rfl
        | ninf => rfl
    rcases hj : jsonParse s with - | v
    · simp only [parseValue, isZodString, isZodNumber, isZodBoolean, hj]
      simpa using hfb
    · cases v with
      | num q0 => exact absurd (jsonParse_num s q0 hj) (hq q0)
      | undef =>
        simp only [parseValue, isZodString, isZodNumber, isZodBoolean, hj]
        simpa [zodParse] using hfb
      | null =>
        simp only [parseValue, isZodString, isZodNumber, isZodBoolean, hj]
        simpa [zodParse] using hfb
      | bool b =>
        simp only [parseValue, isZodString, isZodNumber, isZodBoolean, hj]
        simpa [zodParse] using hfb
      | str w =>
        simp only [parseValue, isZodString, isZodNumber, isZodBoolean, hj]
        simpa [zodParse] using hfb
      | arr xs =>
        simp only [parseValue, isZodString, isZodNumber, isZodBoolean, hj]
        simpa [zodParse] using hfb
      | obj fs =>
        simp only [parseValue, isZodString, isZodNumber, isZodBoolean, hj]
        simpa [zodParse] using hfb

/-- Witness for C6 at concrete boolean and numeric texts. -/
theorem C6_scalar_coercion_witness :
    parseValue .bool " TRUE " = some (.bool true) ∧
    parseValue .bool "no" = none ∧
    parseValue .num "42" = some (.num 42) ∧
    parseValue .num "12abc" = none := by
  refine ⟨(C6_scalar_coercion " TRUE ").1 (by decide), ?_, ?_, ?_⟩
  · exact (C6_scalar_coercion "no").2.2.1 (by decide) (by decide)
  · exact (C6_scalar_coercion "42").2.2.2.1 42 (by decide)
  · refine (C6_scalar_coercion "12abc").2.2.2.2 ?_
    intro q hqc
    rw [show jsToNumber "12abc" = none by decide] at hqc
    cases hqc

/-- Raw text of the first section carrying the given name (later duplicate
headers are behind it in the list). -/
def firstSectionText (completion : String) (k : String) : Option String :=
  ((sectionMap completion).filterMap
    (fun p => if p.1 = some k then some p.2 else none)).head?

/-- Type-directed coercion result of one section: the parsed value, or the
raw text when coercion fails (the partial-mode behaviour). -/
def coerceOrRaw (sch : ZSchema) (raw : String) : Value :=
  match parseValue sch raw with
  | some v => v
  | none => .str raw

lemma contains_true_of_lookup_some {β : Type} (l : List (String × β)) (k : String) (e : β)
    (h : List.lookup k l = some e) : (l.map Prod.fst).contains k = true := by
  induction l with
  | nil => cases h
  | cons p t ih =>
    obtain ⟨k1, v1⟩ := p
    rw [List.lookup] at h
    rw [List.map_cons, List.contains_cons]
    cases hk : (k == k1) with
    | true => rw [Bool.true_or]
    | false =>
      rw [hk] at h
      rw [ih h, Bool.or_true]

lemma lookupG_append_left {β : Type} (l1 l2 : List (String × β)) (k : String)
    (h : (l1.map Prod.fst).contains k = true) :
    List.lookup k (l1 ++ l2) = List.lookup k l1 := by
  induction l1 with
  | nil => simp at h
  | cons p t ih =>
    obtain ⟨k1, v1⟩ := p
    rw [List.cons_append, List.lookup, List.lookup]
    cases hk : (k == k1) with
    | true => rfl
    | false =>
      refine ih ?_
      simpa [List.contains_cons, hk] using h

lemma lookupG_append_fresh {β : Type} (l : List (String × β)) (k : String) (e : β)
    (h : (l.map Prod.fst).contains k = false) :
    List.lookup k (l ++ [(k, e)]) = some e := by
  induction l with
  | nil => simp [List.lookup]
  | cons p t ih =>
    obtain ⟨k1, v1⟩ := p
    rw [List.map_cons, List.contains_cons] at h
    rw [List.cons_append, List.lookup]
    cases hk : (k == k1) with
    | true =>
      rw [hk, Bool.true_or] at h
      cases h
    | false =>
      rw [hk, Bool.false_or] at h
      exact ih h

lemma contains_append_singleton_eq_cons (l : List String) (k x : String) :
    (l ++ [k]).contains x = (k :: l).contains x := by
  induction l with
  | nil => simp [List.contains_cons]
  | cons a t ih =>
    rw [List.cons_append, List.contains_cons, ih, List.contains_cons,
      List.contains_cons, List.contains_cons]
    cases x == k <;> cases x == a <;> rfl

lemma firstDedupAux_congr (l : List String) :
    ∀ seen1 seen2, (∀ x, seen1.contains x = seen2.contains x) →
    firstDedupAux l seen1 = firstDedupAux l seen2 := by
  induction l with
  | nil => intro seen1 seen2 h; rfl
  | cons a t ih =>
    intro seen1 seen2 h
    rw [firstDedupAux, firstDedupAux, h a]
    cases ha : seen2.contains a with
    | true => exact ih seen1 seen2 h
    | false =>
      rw [if_neg (by simp [ha]), if_neg (by simp [ha])]
      refine congrArg (a :: ·) (ih _ _ ?_)
      intro x
      rw [List.contains_cons, List.contains_cons, h x]

/-- The output-field names recognised by the result-building loop, stated
against `firstDedupAux`: first occurrences of the section names that are
output fields, seeded by the keys already accumulated. -/
lemma chatParseLoop_ok_keys (sig : Signature) (completion : String) (partial_ : Bool) :
    ∀ (ps : List (Option String × String)) (acc m : List (String × Value)),
    chatParseLoop sig completion partial_ ps acc = .ok m →
    m.map Prod.fst = acc.map Prod.fst ++
      firstDedupAux ((ps.filterMap Prod.fst).filter (fun k => sig.outputKeys.contains k))
        (acc.map Prod.fst) := by
  intro ps
  induction ps with
  | nil =>
    intro acc m h
    injection h with h1
    rw [← h1]
    simp [firstDedupAux]
  | cons p rest ih =>
    intro acc m h
    obtain ⟨ok, v⟩ := p
    cases ok with
    | none =>
      rw [chatParseLoop] at h
      simpa [List.filterMap_cons] using ih acc m h
    | some k =>
      rw [chatParseLoop] at h
      rw [List.filterMap_cons]
      simp only [Option.some.injEq]
      by_cases hc : (acc.map Prod.fst).contains k
      · rw [if_pos hc] at h
        have := ih acc m h
        rw [this]
        by_cases ho : sig.outputKeys.contains k
        · rw [List.filter_cons, if_pos (by simpa using ho), firstDedupAux, if_pos hc]
        · rw [List.filter_cons, if_neg (by simpa using ho)]
      · rw [if_neg hc] at h
        rcases hl : sig.output.lookup k with - | sch
        · have h2 : chatParseLoop sig completion partial_ rest acc = .ok m := by
            rw [hl] at h; exact h
          have ho : sig.outputKeys.contains k = false :=
            contains_false_of_lookup_none sig.output k hl
          rw [List.filter_cons,
            if_neg (fun hcontra => by rw [ho] at hcontra; cases hcontra)]
          exact ih acc m h2
        · have h2 : (match parseValue sch v with
              | some pv => chatParseLoop sig completion partial_ rest (acc ++ [(k, pv)])
              | none =>
                if partial_ = true then
                  chatParseLoop sig completion partial_ rest (acc ++ [(k, Value.str v)])
                else
                  Except.error (mkAdapterParseError "ChatAdapter" sig completion
                    (some ("Failed to parse field " ++ k ++ " with value " ++ v ++
                      " from the LM response.")) none)) = .ok m := by
            rw [hl] at h; exact h
          have ho : sig.outputKeys.contains k = true :=
            contains_true_of_lookup_some sig.output k sch hl
          rw [List.filter_cons, if_pos (by simpa using ho)]
          rw [firstDedupAux, if_neg hc]
          have hstep : ∀ pv m2,
              chatParseLoop sig completion partial_ rest (acc ++ [(k, pv)]) = .ok m2 →
              m2.map Prod.fst = acc.map Prod.fst ++
                (k :: firstDedupAux
                  ((rest.filterMap Prod.fst).filter (fun k2 => sig.outputKeys.contains k2))
                  (k :: acc.map Prod.fst)) := by
            intro pv m2 hh
            have hih := ih (acc ++ [(k, pv)]) m2 hh
            rw [hih, List.map_append]
            have hcongr := firstDedupAux_congr
              ((rest.filterMap Prod.fst).filter (fun k2 => sig.outputKeys.contains k2))
              (acc.map Prod.fst ++ [(k, pv)].map Prod.fst) (k :: acc.map Prod.fst)
              (fun x => by
                rw [show ([(k, pv)].map Prod.fst) = [k] from rfl,
                  contains_append_singleton_eq_cons])
            rw [hcongr]
            simp
          rcases hp : parseValue sch v with - | pv
          · have h3 : (if partial_ = true then
                chatParseLoop sig completion partial_ rest (acc ++ [(k, Value.str v)])
              else
                Except.error (mkAdapterParseError "ChatAdapter" sig completion
                  (some ("Failed to parse field " ++ k ++ " with value " ++ v ++
                    " from the LM response.")) none)) = .ok m := by
              rw [hp] at h2; exact h2
            by_cases hpa : partial_ = true
            · rw [if_pos hpa] at h3
              exact hstep _ m h3
            · rw [if_neg hpa] at h3
              cases h3
          · have h3 : chatParseLoop sig completion partial_ rest (acc ++ [(k, pv)]) = .ok m := by
              rw [hp] at h2; exact h2
            exact hstep pv m h3

/-- In partial mode the result-building loop never raises. -/
lemma chatParseLoop_partial_ok (sig : Signature) (completion : String) :
    ∀ (ps : List (Option String × String)) (acc : List (String × Value)),
    ∃ m, chatParseLoop sig completion true ps acc = .ok m := by
  intro ps
  induction ps with
  | nil => intro acc; exact ⟨acc, rfl⟩
  | cons p rest ih =>
    intro acc
    obtain ⟨ok, v⟩ := p
    cases ok with
    | none => exact ih acc
    | some k =>
      rw [chatParseLoop]
      by_cases hc : (acc.map Prod.fst).contains k
      · rw [if_pos hc]; exact ih acc
      · rw [if_neg hc]
        rcases hl : sig.output.lookup k with - | sch
        · obtain ⟨m, hm⟩ := ih acc
          exact ⟨m, hm⟩
        · rcases hp : parseValue sch v with - | pv
          · obtain ⟨m, hm⟩ := ih (acc ++ [(k, Value.str v)])
            refine ⟨m, ?_⟩
            show (match parseValue sch v with
              | some pv => chatParseLoop sig completion true rest (acc ++ [(k, pv)])
              | none =>
                if true = true then
                  chatParseLoop sig completion true rest (acc ++ [(k, Value.str v)])
                else
                  Except.error (mkAdapterParseError "ChatAdapter" sig completion
                    (some ("Failed to parse field " ++ k ++ " with value " ++ v ++
                      " from the LM response.")) none)) = Except.ok m
            rw [hp]
            exact hm
          · obtain ⟨m, hm⟩ := ih (acc ++ [(k, pv)])
            refine ⟨m, ?_⟩
            show (match parseValue sch v with
              | some pv => chatParseLoop sig completion true rest (acc ++ [(k, pv)])
              | none =>
                if true = true then
                  chatParseLoop sig completion true rest (acc ++ [(k, Value.str v)])
                else
                  Except.error (mkAdapterParseError "ChatAdapter" sig completion
                    (some ("Failed to parse field " ++ k ++ " with value " ++ v ++
                      " from the LM response.")) none)) = Except.ok m
            rw [hp]
            exact hm

/-- In strict mode every error raised by the loop is an `AdapterParseError`
built by the constructor with the adapter name and signature. -/
lemma chatParseLoop_error_shape (sig : Signature) (completion : String) (partial_ : Bool) :
    ∀ (ps : List (Option String × String)) (acc : List (String × Value)) (e : AdapterParseError),
    chatParseLoop sig completion partial_ ps acc = .error e →
    ∃ msg pr, e = mkAdapterParseError "ChatAdapter" sig completion msg pr := by
  intro ps
  induction ps with
  | nil => intro acc e h; cases h
  | cons p rest ih =>
    intro acc e h
    obtain ⟨ok, v⟩ := p
    cases ok with
    | none => exact ih acc e h
    | some k =>
      rw [chatParseLoop] at h
      by_cases hc : (acc.map Prod.fst).contains k
      · rw [if_pos hc] at h; exact ih acc e h
      · rw [if_neg hc] at h
        rcases hl : sig.output.lookup k with - | sch
        · have h2 : chatParseLoop sig completion partial_ rest acc = .error e := by
            rw [hl] at h; exact h
          exact ih acc e h2
        · have h2 : (match parseValue sch v with
              | some pv => chatParseLoop sig completion partial_ rest (acc ++ [(k, pv)])
              | none =>
                if partial_ = true then
                  chatParseLoop sig completion partial_ rest (acc ++ [(k, Value.str v)])
                else
                  Except.error (mkAdapterParseError "ChatAdapter" sig completion
                    (some ("Failed to parse field " ++ k ++ " with value " ++ v ++
                      " from the LM response.")) none)) = .error e := by
            rw [hl] at h; exact h
          rcases hp : parseValue sch v with - | pv
          · have h3 : (if partial_ = true then
                chatParseLoop sig completion partial_ rest (acc ++ [(k, Value.str v)])
              else
                Except.error (mkAdapterParseError "ChatAdapter" sig completion
                  (some ("Failed to parse field " ++ k ++ " with value " ++ v ++
                    " from the LM response.")) none)) = .error e := by
              rw [hp] at h2; exact h2
            by_cases hpa : partial_ = true
            · rw [if_pos hpa] at h3
              exact ih _ e h3
            · rw [if_neg hpa] at h3
              injection h3 with h4
              exact ⟨_, _, h4.symm⟩
          · have h3 : chatParseLoop sig completion partial_ rest (acc ++ [(k, pv)]) = .error e := by
              rw [hp] at h2; exact h2
            exact ih _ e h3

/-- The message composed by the `AdapterParseError` constructor always names
the expected output fields. -/
lemma mkAdapterParseError_message_names_expected (n : String) (g : Signature)
    (r : String) (m : Option String) (pr : Option (List (String × Value))) :
    ∃ pre post, (mkAdapterParseError n g r m pr).message =
      pre ++ ("Expected to find output fields in the LM response: [" ++
        String.intercalate ", " g.outputKeys ++ "]") ++ post := by
  refine ⟨(match m with | some mm => mm ++ "\n\n" | none => "") ++
    "Adapter " ++ n ++ " failed to parse the LM response. \n\n" ++
    "LM Response: " ++ r ++ " \n\n",
    " \n\n" ++ (match pr with
     | some rr => "Actual output fields parsed from the LM response: [" ++
        String.intercalate ", " (rr.map Prod.fst) ++ "] \n\n"
     | none => ""), ?_⟩
  rw [mkAdapterParseError.eq_def]
  rcases m with - | mm <;> rcases pr with - | rr <;>
    simp only [String.append_assoc] <;> rfl

/-- Keys already accumulated keep their values through the loop. -/
lemma chatParseLoop_preserve (sig : Signature) (completion : String) (partial_ : Bool) :
    ∀ (ps : List (Option String × String)) (acc m : List (String × Value)),
    chatParseLoop sig completion partial_ ps acc = .ok m →
    ∀ k, (acc.map Prod.fst).contains k = true → List.lookup k m = List.lookup k acc := by
  intro ps
  induction ps with
  | nil =>
    intro acc m h k hk
    injection h with h1
    rw [h1]
  | cons p rest ih =>
    intro acc m h k hk
    obtain ⟨ok, v⟩ := p
    cases ok with
    | none => exact ih acc m h k hk
    | some k2 =>
      rw [chatParseLoop] at h
      by_cases hc : (acc.map Prod.fst).contains k2
      · rw [if_pos hc] at h
        exact ih acc m h k hk
      · rw [if_neg hc] at h
        rcases hl : sig.output.lookup k2 with - | sch
        · have h2 : chatParseLoop sig completion partial_ rest acc = .ok m := by
            rw [hl] at h; exact h
          exact ih acc m h2 k hk
        · have h2 : (match parseValue sch v with
              | some pv => chatParseLoop sig completion partial_ rest (acc ++ [(k2, pv)])
              | none =>
                if partial_ = true then
                  chatParseLoop sig completion partial_ rest (acc ++ [(k2, Value.str v)])
                else
                  Except.error (mkAdapterParseError "ChatAdapter" sig completion
                    (some ("Failed to parse field " ++ k2 ++ " with value " ++ v ++
                      " from the LM response.")) none)) = .ok m := by
            rw [hl] at h; exact h
          have hstep : ∀ pv,
              chatParseLoop sig completion partial_ rest (acc ++ [(k2, pv)]) = .ok m →
              List.lookup k m = List.lookup k acc := by
            intro pv hh
            have hk2 : ((acc ++ [(k2, pv)]).map Prod.fst).contains k = true := by
              rw [List.map_append, show ([(k2, pv)].map Prod.fst) = [k2] from rfl,
                contains_append_singleton_eq_cons, List.contains_cons, hk, Bool.or_true]
            have hpres := ih (acc ++ [(k2, pv)]) m hh k hk2
            rw [hpres]
            exact lookupG_append_left acc [(k2, pv)] k hk
          rcases hp : parseValue sch v with - | pv
          · have h3 : (if partial_ = true then
                chatParseLoop sig completion partial_ rest (acc ++ [(k2, Value.str v)])
              else
                Except.error (mkAdapterParseError "ChatAdapter" sig completion
                  (some ("Failed to parse field " ++ k2 ++ " with value " ++ v ++
                    " from the LM response.")) none)) = .ok m := by
              rw [hp] at h2; exact h2
            by_cases hpa : partial_ = true
            · rw [if_pos hpa] at h3
              exact hstep _ h3
            · rw [if_neg hpa] at h3
              cases h3
          · have h3 :
                chatParseLoop sig completion partial_ rest (acc ++ [(k2, pv)]) = .ok m := by
              rw [hp] at h2; exact h2
            exact hstep pv h3

lemma filterMapFirst_cons_hit (k v : String) (rest : List (Option String × String)) :
    ((some k, v) :: rest).filterMap (fun p => if p.1 = some k then some p.2 else none) =
      v :: rest.filterMap (fun p => if p.1 = some k then some p.2 else none) := by
  rw [List.filterMap_cons]
  simp

lemma filterMapFirst_cons_miss (ok : Option String) (k v : String)
    (rest : List (Option String × String)) (h : ok ≠ some k) :
    ((ok, v) :: rest).filterMap (fun p => if p.1 = some k then some p.2 else none) =
      rest.filterMap (fun p => if p.1 = some k then some p.2 else none) := by
  rw [List.filterMap_cons]
  simp [h]

/-- The first section carrying a recognised output-field name determines the
resulting value of that field: the coerced value, or the raw section text
when coercion fails (only reachable in partial mode). -/
lemma chatParseLoop_first_value (sig : Signature) (completion : String) (partial_ : Bool) :
    ∀ (ps : List (Option String × String)) (acc m : List (String × Value)),
    chatParseLoop sig completion partial_ ps acc = .ok m →
    ∀ k sch raw, (acc.map Prod.fst).contains k = false →
    sig.output.lookup k = some sch →
    (ps.filterMap (fun p => if p.1 = some k then some p.2 else none)).head? = some raw →
    List.lookup k m = some (coerceOrRaw sch raw) := by
  intro ps
  induction ps with
  | nil =>
    intro acc m h k sch raw hk hl hr
    cases hr
  | cons p rest ih =>
    intro acc m h k sch raw hk hl hr
    obtain ⟨ok, v⟩ := p
    by_cases hkk : ok = some k
    · subst hkk
      rw [filterMapFirst_cons_hit, List.head?_cons] at hr
      injection hr with hraw
      subst hraw
      rw [chatParseLoop,
        if_neg (fun hcontra => by rw [hk] at hcontra; cases hcontra)] at h
      have h2 : (match parseValue sch v with
          | some pv => chatParseLoop sig completion partial_ rest (acc ++ [(k, pv)])
          | none =>
            if partial_ = true then
              chatParseLoop sig completion partial_ rest (acc ++ [(k, Value.str v)])
            else
              Except.error (mkAdapterParseError "ChatAdapter" sig completion
                (some ("Failed to parse field " ++ k ++ " with value " ++ v ++
                  " from the LM response.")) none)) = .ok m := by
        rw [hl] at h; exact h
      have hstep : ∀ pv,
          chatParseLoop sig completion partial_ rest (acc ++ [(k, pv)]) = .ok m →
          List.lookup k m = some pv := by
        intro pv hh
        have hk2 : ((acc ++ [(k, pv)]).map Prod.fst).contains k = true := by
          rw [List.map_append, show ([(k, pv)].map Prod.fst) = [k] from rfl,
            contains_append_singleton_eq_cons, List.contains_cons]
          simp
        have hpres := chatParseLoop_preserve sig completion partial_ rest
          (acc ++ [(k, pv)]) m hh k hk2
        rw [hpres]
        exact lookupG_append_fresh acc k pv hk
      rcases hp : parseValue sch v with - | pv
      · have h3 : (if partial_ = true then
            chatParseLoop sig completion partial_ rest (acc ++ [(k, Value.str v)])
          else
            Except.error (mkAdapterParseError "ChatAdapter" sig completion
              (some ("Failed to parse field " ++ k ++ " with value " ++ v ++
                " from the LM response.")) none)) = .ok m := by
          rw [hp] at h2; exact h2
        by_cases hpa : partial_ = true
        · rw [if_pos hpa] at h3
          rw [coerceOrRaw, hp]
          exact hstep _ h3
        · rw [if_neg hpa] at h3
          cases h3
      · have h3 : chatParseLoop sig completion partial_ rest (acc ++ [(k, pv)]) = .ok m := by
          rw [hp] at h2; exact h2
        rw [coerceOrRaw, hp]
        exact hstep pv h3
    · rw [filterMapFirst_cons_miss ok k v rest hkk] at hr
      cases ok with
      | none => exact ih acc m h k sch raw hk hl hr
      | some k2 =>
        have hne : k2 ≠ k := fun hcontra => hkk (by rw [hcontra])
        rw [chatParseLoop] at h
        by_cases hc : (acc.map Prod.fst).contains k2
        · rw [if_pos hc] at h
          exact ih acc m h k sch raw hk hl hr
        · rw [if_neg hc] at h
          rcases hl2 : sig.output.lookup k2 with - | sch2
          · have h2 : chatParseLoop sig completion partial_ rest acc = .ok m := by
              rw [hl2] at h; exact h
            exact ih acc m h2 k sch raw hk hl hr
          · have h2 : (match parseValue sch2 v with
                | some pv => chatParseLoop sig completion partial_ rest (acc ++ [(k2, pv)])
                | none =>
                  if partial_ = true then
                    chatParseLoop sig completion partial_ rest (acc ++ [(k2, Value.str v)])
                  else
                    Except.error (mkAdapterParseError "ChatAdapter" sig completion
                      (some ("Failed to parse field " ++ k2 ++ " with value " ++ v ++
                        " from the LM response.")) none)) = .ok m := by
              rw [hl2] at h; exact h
            have hstep : ∀ pv,
                chatParseLoop sig completion partial_ rest (acc ++ [(k2, pv)]) = .ok m →
                List.lookup k m = some (coerceOrRaw sch raw) := by
              intro pv hh
              have hk2 : ((acc ++ [(k2, pv)]).map Prod.fst).contains k = false := by
                rw [List.map_append, show ([(k2, pv)].map Prod.fst) = [k2] from rfl,
                  contains_append_singleton_eq_cons, List.contains_cons, hk,
                  Bool.or_false]
                exact beq_eq_false_iff_ne.mpr (fun hx => hne hx.symm)
              exact ih (acc ++ [(k2, pv)]) m hh k sch raw hk2 hl hr
            rcases hp : parseValue sch2 v with - | pv
            · have h3 : (if partial_ = true then
                  chatParseLoop sig completion partial_ rest (acc ++ [(k2, Value.str v)])
                else
                  Except.error (mkAdapterParseError "ChatAdapter" sig completion
                    (some ("Failed to parse field " ++ k2 ++ " with value " ++ v ++
                      " from the LM response.")) none)) = .ok m := by
                rw [hp] at h2; exact h2
              by_cases hpa : partial_ = true
              · rw [if_pos hpa] at h3
                exact hstep _ h3
              · rw [if_neg hpa] at h3
                cases h3
            · have h3 :
                  chatParseLoop sig completion partial_ rest (acc ++ [(k2, pv)]) = .ok m := by
                rw [hp] at h2; exact h2
              exact hstep pv h3

lemma chatParse_loop_error (sig : Signature) (completion : String) (b : Bool)
    (e : AdapterParseError)
    (h : chatParseLoop sig completion b (sectionMap completion) [] = .error e) :
    chatParse sig completion b = .error e := by
  rw [chatParse, h]

lemma chatParse_loop_ok (sig : Signature) (completion : String) (b : Bool)
    (result : List (String × Value))
    (h : chatParseLoop sig completion b (sectionMap completion) [] = .ok result) :
    chatParse sig completion b =
      if !sameKeys sig.outputKeys (result.map Prod.fst) && !b then
        .error (mkAdapterParseError "ChatAdapter" sig completion
          (some ("Expected output fields: " ++ String.intercalate ", " sig.outputKeys))
          (some result))
      else .ok result := by
  rw [chatParse, h]

/-- C2: when the set of output-field sections recovered by the marker parser
does not exactly equal the signature's output field names, `ChatAdapter.parse`
in strict mode raises an `AdapterParseError` carrying the adapter name and
signature whose message names the expected output fields; with
`allow_partial_output` it instead returns exactly the recovered subset of
fields, and a field whose type coercion fails is kept as its raw section
text rather than causing failure. -/
theorem C2_parse_field_set (sig : Signature) (completion : String)
    (hmis : sameKeys sig.outputKeys (recoveredKeys sig completion) = false) :
    (∃ e, chatParse sig completion false = .error e ∧
       e.adapter_name = "ChatAdapter" ∧ e.signature = sig ∧
       ∃ pre post, e.message = pre ++
         ("Expected to find output fields in the LM response: [" ++
           String.intercalate ", " sig.outputKeys ++ "]") ++ post) ∧
    (∃ m, chatParse sig completion true = .ok m ∧
       m.map Prod.fst = recoveredKeys sig completion ∧
       ∀ k sch raw, sig.output.lookup k = some sch →
         firstSectionText completion k = some raw →
         List.lookup k m = some (coerceOrRaw sch raw)) := by
  constructor
  · rcases hloop : chatParseLoop sig completion false (sectionMap completion) [] with e | result
    · obtain ⟨msg, pr, he⟩ := chatParseLoop_error_shape sig completion false
        (sectionMap completion) [] e hloop
      refine ⟨e, chatParse_loop_error sig completion false e hloop, ?_, ?_, ?_⟩
      · rw [he]; rfl
      · rw [he]; rfl
      · rw [he]
        exact mkAdapterParseError_message_names_expected "ChatAdapter" sig completion msg pr
    · have hkeys : result.map Prod.fst = recoveredKeys sig completion :=
        chatParseLoop_ok_keys sig completion false (sectionMap completion) [] result hloop
      refine ⟨mkAdapterParseError "ChatAdapter" sig completion
        (some ("Expected output fields: " ++ String.intercalate ", " sig.outputKeys))
        (some result), ?_, rfl, rfl,
        mkAdapterParseError_message_names_expected "ChatAdapter" sig completion
          (some ("Expected output fields: " ++ String.intercalate ", " sig.outputKeys))
          (some result)⟩
      rw [chatParse_loop_ok sig completion false result hloop, hkeys, hmis]
      rfl
  · obtain ⟨result, hloop⟩ :=
      chatParseLoop_partial_ok sig completion (sectionMap completion) []
    have hkeys : result.map Prod.fst = recoveredKeys sig completion :=
      chatParseLoop_ok_keys sig completion true (sectionMap completion) [] result hloop
    refine ⟨result, ?_, hkeys, ?_⟩
    · rw [chatParse_loop_ok sig completion true result hloop, Bool.not_true, Bool.and_false]
      rfl
    · intro k sch raw hlk hr
      exact chatParseLoop_first_value sig completion true (sectionMap completion) [] result
        hloop k sch raw rfl hlk hr

/-- Two-field output signature used to exercise `ChatAdapter.parse`. -/
def C2sig : Signature :=
  { input := [("q", ZSchema.str)], output := [("a1", ZSchema.str), ("a2", ZSchema.str)] }

/-- A completion carrying only the `a1` output section. -/
def C2completion : String := "[[ ## a1 ## ]]\nfoo"

/-- C2 witness: on a completion carrying only `a1` of the two output fields
`a1, a2`, strict parsing errors naming the expected fields and partial
parsing returns only the recovered field. -/
theorem C2_parse_field_set_witness :
    sameKeys C2sig.outputKeys (recoveredKeys C2sig C2completion) = false ∧
    ((∃ e, chatParse C2sig C2completion false = .error e ∧
       e.adapter_name = "ChatAdapter" ∧ e.signature = C2sig ∧
       ∃ pre post, e.message = pre ++
         ("Expected to find output fields in the LM response: [" ++
           String.intercalate ", " C2sig.outputKeys ++ "]") ++ post) ∧
     (∃ m, chatParse C2sig C2completion true = .ok m ∧
       m.map Prod.fst = recoveredKeys C2sig C2completion ∧
       ∀ k sch raw, C2sig.output.lookup k = some sch →
         firstSectionText C2completion k = some raw →
         List.lookup k m = some (coerceOrRaw sch raw))) :=
  ⟨rfl, C2_parse_field_set C2sig C2completion rfl⟩

lemma chatParse_ok_inv (sig : Signature) (completion : String) (b : Bool)
    (m : List (String × Value))
    (h : chatParse sig completion b = .ok m) :
    chatParseLoop sig completion b (sectionMap completion) [] = .ok m := by
  rcases hloop : chatParseLoop sig completion b (sectionMap completion) [] with e | result
  · rw [chatParse_loop_error sig completion b e hloop] at h
    cases h
  · rw [chatParse_loop_ok sig completion b result hloop] at h
    by_cases hcond : (!sameKeys sig.outputKeys (result.map Prod.fst) && !b) = true
    · rw [if_pos hcond] at h
      cases h
    · rw [if_neg hcond] at h
      injection h with h1
      rw [h1]

/-- One-output-field signature used to exercise the marker-section scanner. -/
def C7sig : Signature :=
  { input := [("q", ZSchema.str)], output := [("answer", ZSchema.str)] }

/-- The completion text mandated by the claim. -/
def C7completion : String := "[[ ## answer ## ]]\nParis\n\n[[ ## completed ## ]]"

/-- A completion with a leading unnamed section. -/
def C7leading : String := "some preamble text\n[[ ## answer ## ]]\nParis"

/-- A completion with a duplicate header for the same field. -/
def C7dup : String := "[[ ## answer ## ]]\nParis\n\n[[ ## answer ## ]]\nLondon"

/-- A completion with an indented header and a multi-line body. -/
def C7multi : String := "  [[ ## answer ## ]]\nline1\n\nline2  "

/-- C7: on `"[[ ## answer ## ]]\nParis\n\n[[ ## completed ## ]]"` with the
single text output field `answer` the marker parser returns exactly
`{answer: "Paris"}`; a `[[ ## name ## ]]` header at (trimmed) line start
opens a section whose following lines are joined with newlines and trimmed;
the leading unnamed section is discarded; and the first occurrence of a field
name wins over later duplicate headers. -/
theorem C7_marker_sections :
    chatParse C7sig C7completion false = .ok [("answer", Value.str "Paris")] ∧
    sectionMap C7completion =
      [(none, ""), (some "answer", "Paris"), (some "completed", "")] ∧
    chatParse C7sig C7leading false = .ok [("answer", Value.str "Paris")] ∧
    chatParse C7sig C7dup false = .ok [("answer", Value.str "Paris")] ∧
    sectionMap C7multi = [(none, ""), (some "answer", "line1\n\nline2")] ∧
    (∀ (sig : Signature) (completion : String) (b : Bool) (m : List (String × Value))
       (k : String) (sch : ZSchema) (raw : String),
       chatParse sig completion b = .ok m →
       sig.output.lookup k = some sch →
       firstSectionText completion k = some raw →
       List.lookup k m = some (coerceOrRaw sch raw)) := by
  refine ⟨rfl, rfl, rfl, rfl, rfl, ?_⟩
  intro sig completion b m k sch raw hok hlk hr
  exact chatParseLoop_first_value sig completion b (sectionMap completion) [] m
    (chatParse_ok_inv sig completion b m hok) k sch raw rfl hlk hr

/-- C7 witness: the first-occurrence-wins clause instantiated on the
duplicate-header completion. -/
theorem C7_marker_sections_witness :
    chatParse C7sig C7dup false = .ok [("answer", Value.str "Paris")] ∧
    C7sig.output.lookup "answer" = some ZSchema.str ∧
    firstSectionText C7dup "answer" = some "Paris" ∧
    List.lookup "answer" [("answer", Value.str "Paris")] =
      some (coerceOrRaw ZSchema.str "Paris") :=
  ⟨rfl, rfl, rfl, C7_marker_sections.2.2.2.2.2 C7sig C7dup false
    [("answer", Value.str "Paris")] "answer" ZSchema.str "Paris" rfl rfl rfl⟩

/-- Two-output-field signature used to exercise the demo ordering. -/
def C9sig : Signature :=
  { input := [("q", ZSchema.str)], output := [("a1", ZSchema.str), ("a2", ZSchema.str)] }

/-- A demo supplying every input and every output field. -/
def C9db : List (String × Value) :=
  [("q", Value.str "qb"), ("a1", Value.str "b1"), ("a2", Value.str "b2")]

/-- A demo supplying the input field and only the first output field. -/
def C9da : List (String × Value) :=
  [("q", Value.str "qa"), ("a1", Value.str "a1v")]

def C9inputs : List (String × Value) := [("q", Value.str "current")]

/-- Demo completeness as the specification words it: every input AND output
field present and non-null (the source checks the input fields only, see
`demoIsComplete`). -/
def specDemoIsComplete (sig : Signature) (demo : List (String × Value)) : Bool :=
  (sig.input ++ sig.output).all (fun p => isPresentNonNull (demo.lookup p.1))

set_option maxRecDepth 8000 in
/-- C9 counterexample: with completeness read as the specification defines it
(all input and output fields), a complete demo's user/assistant pair can
precede an incomplete-but-usable demo's pair: `C9db` supplies all fields and
`C9da` misses the output `a2`, yet `C9db`'s pair (the `"qb"` user turn) is
rendered before `C9da`'s (the `"qa"` user turn), because the source
classifies demos by their input fields only. -/
theorem C9_counterexample :
    specDemoIsComplete C9sig C9db = true ∧
    specDemoIsComplete C9sig C9da = false ∧
    demoHasInput C9sig C9da = true ∧
    demoHasOutput C9sig C9da = true ∧
    ∃ sysText dbAsst daAsst mainText,
      format C9sig [C9db, C9da] C9inputs = .ok
        [⟨Role.system, .text sysText⟩,
         ⟨Role.user, .text "[[ ## q ## ]]\n\"qb\""⟩,
         ⟨Role.assistant, .text dbAsst⟩,
         ⟨Role.user, .text "[[ ## q ## ]]\n\"qa\""⟩,
         ⟨Role.assistant, .text daAsst⟩,
         ⟨Role.user, .text mainText⟩] :=
  ⟨rfl, rfl, rfl, rfl, _, _, _, _, rfl⟩

/-- The one-pass demo partition of `Adapter.format_demos` is the pair of
order-preserving filters. -/
lemma demosFold_partition (sig : Signature) :
    ∀ (demos : List (List (String × Value)))
      (acc : List (List (String × Value)) × List (List (String × Value))),
    demos.foldl
      (fun (acc : List (List (String × Value)) × List (List (String × Value))) demo =>
        if demoIsComplete sig demo then (acc.1 ++ [demo], acc.2)
        else if demoHasInput sig demo && demoHasOutput sig demo then (acc.1, acc.2 ++ [demo])
        else acc)
      acc =
      (acc.1 ++ demos.filter (fun d => demoIsComplete sig d),
       acc.2 ++ demos.filter (fun d =>
         !demoIsComplete sig d && (demoHasInput sig d && demoHasOutput sig d))) := by
  intro demos
  induction demos with
  | nil => intro acc; simp
  | cons d rest ih =>
    intro acc
    rw [List.foldl_cons, ih]
    by_cases hc : demoIsComplete sig d = true
    · simp [hc, List.filter_cons, List.append_assoc]
    · by_cases h2 : (demoHasInput sig d && demoHasOutput sig d) = true
      · simp [hc, h2, List.filter_cons, List.append_assoc]
      · simp [hc, h2, List.filter_cons]

/-- `Adapter.format_demos` as the specification states the ordering (with the
source's input-only completeness check): the incomplete-but-usable demos,
filtered in original order, are rendered first, and the complete demos,
filtered in original order, after. -/
def formatDemosSpec (sig : Signature) (demos : List (List (String × Value)))
    (st : FmtSt) : Except String (List Msg × FmtSt) := do
  let (im, st1) ← demoPairs sig incomplete_demo_message
    "Not supplied for this particular example. " st
    (demos.filter (fun d =>
      !demoIsComplete sig d && (demoHasInput sig d && demoHasOutput sig d)))
  let (cm, st2) ← demoPairs sig ""
    "Not supplied for this conversation history message. " st1
    (demos.filter (fun d => demoIsComplete sig d))
  .ok (im ++ cm, st2)

lemma format_demos_eq_spec (sig : Signature) (demos : List (List (String × Value)))
    (st : FmtSt) : format_demos sig demos st = formatDemosSpec sig demos st := by
  rw [format_demos, formatDemosSpec, demosFold_partition sig demos ([], [])]
  rfl

/-- `Adapter.format` as the specification orders it: one system message, then
the demo pairs (incomplete before complete, each group in original input
order), then the conversation-history pairs, then exactly one final
main-request user message — the only turn rendered with `main_request =
true`, which is what appends the output-field-order instruction — with the
custom-type split pass running last. -/
def formatSpec (sig : Signature) (demos : List (List (String × Value)))
    (inputs : List (String × Value)) : Except String (List Msg) := do
  let st0 : FmtSt := ([], 0)
  let historyFieldName := _get_history_field_name sig
  let (conversationHistory, st1) ←
    match historyFieldName with
    | some h => format_conversation_history (sig.deleteInput h) h inputs st0
    | none => pure (([] : List Msg), st0)
  let ffs ← format_field_structure sig
  let systemMessage := String.intercalate "\n"
    ([format_field_description sig, ffs, format_task_description sig].filter (fun s => s ≠ ""))
  let (demoMsgs, st2) ← formatDemosSpec sig demos st1
  let (mainContent, st3) ←
    match historyFieldName with
    | some h => format_user_message_content (sig.deleteInput h) inputs st2 "" "" true
    | none => format_user_message_content sig inputs st2 "" "" true
  let messages := (⟨Role.system, .text systemMessage⟩ : Msg) :: demoMsgs ++
    conversationHistory ++ [(⟨Role.user, .text mainContent⟩ : Msg)]
  split_message_content_for_custom_types messages st3.1

/-- C9 (amended): `Adapter.format` produces exactly the specification-ordered
message sequence [system, demo pairs, history pairs, one final main-request
user message], where within the demo block the incomplete demos precede the
complete ones — with completeness judged by the source's input-only check —
each group keeping the demos' original order, and only the final user turn
is rendered as the main request carrying the output-field-order
instruction. -/
theorem C9_format_order (sig : Signature) (demos : List (List (String × Value)))
    (inputs : List (String × Value)) :
    format sig demos inputs = formatSpec sig demos inputs := by
  rw [format, formatSpec]
  simp only [format_demos_eq_spec]
